/-
Verification of the regime-based backtesting engine (src/backtester.py).

The development shallowly embeds the Python source into Lean:
* pandas float cells that can be NaN/±inf are modelled with `PVal` or
  `Option ℚ` (none = undefined);
* machine floats are modelled as exact rationals `ℚ` (the source's
  arithmetic is plain IEEE arithmetic with no overflow concerns; the
  properties verified here are order/algebraic facts that hold exactly);
* pandas timestamps are modelled as integers counted in hours
  (`pd.Timedelta(hours=48)` becomes `+ 48`), with `pd.Timestamp.min`
  modelled as the bottom element of `WithBot ℤ`;
* the stateful simulation loop of `run_backtest` becomes a fold of a
  step function over the list of bars, with the loop-local variables
  gathered in a `SimState` structure.
-/
import Mathlib

/- Core marks `Rat` arithmetic irreducible for elaboration performance;
making it semireducible lets `decide` evaluate the embedded program on
concrete rational inputs (the kernel reduces these definitions either
way, so no proof depends on anything unsound). -/
set_option allowUnsafeReducibility true
attribute [semireducible] Rat.div Rat.mul Rat.add Rat.sub Rat.neg
  Rat.normalize Rat.inv Rat.ofScientific

set_option maxRecDepth 16000

namespace Backtester

/-! ## Rows consumed by the simulation loop

After `df.dropna()` (line 131 of the source) every row of the simulated
series carries defined indicator values, so the row fields are plain
rationals.  `regime_state` is the integer HMM state of the row. -/

structure SimRow where
  Close : ℚ
  rsi : ℚ
  momentum : ℚ
  volatility : ℚ
  adx : ℚ
  ema50 : ℚ
  ema200 : ℚ
  macd : ℚ
  macd_signal : ℚ
  regime_state : ℤ
  deriving DecidableEq, Repr

/-! ## `evaluate_confirmations` (source lines 103–115) -/

structure Checks where
  rsi_lt_90 : Bool
  momentum_gt_1pct : Bool
  volatility_lt_6pct : Bool
  adx_gt_25 : Bool
  price_gt_ema50 : Bool
  price_gt_ema200 : Bool
  ema50_gt_ema200 : Bool
  macd_gt_signal : Bool
  deriving DecidableEq, Repr

/-- Embedding of `evaluate_confirmations`: the eight boolean checks in
source order, and `votes = sum(checks.values())` (Python sums booleans
as 0/1 integers, in dict insertion order). -/
def evaluate_confirmations (row : SimRow) : ℕ × Checks :=
  let checks : Checks :=
    { rsi_lt_90 := decide (row.rsi < 90)
      momentum_gt_1pct := decide (row.momentum > 0.01)
      volatility_lt_6pct := decide (row.volatility < 6)
      adx_gt_25 := decide (row.adx > 25)
      price_gt_ema50 := decide (row.Close > row.ema50)
      price_gt_ema200 := decide (row.Close > row.ema200)
      ema50_gt_ema200 := decide (row.ema50 > row.ema200)
      macd_gt_signal := decide (row.macd > row.macd_signal) }
  let votes : ℕ :=
    checks.rsi_lt_90.toNat + checks.momentum_gt_1pct.toNat +
    checks.volatility_lt_6pct.toNat + checks.adx_gt_25.toNat +
    checks.price_gt_ema50.toNat + checks.price_gt_ema200.toNat +
    checks.ema50_gt_ema200.toNat + checks.macd_gt_signal.toNat
  (votes, checks)

/-! ## `max_drawdown` (source lines 118–121)

`equity_curve.cummax()` is the running maximum, `drawdown` the
elementwise `equity / running_max - 1`, and the result its minimum.
On an empty series pandas would return NaN; the embedding returns a
junk value `0` there (all claims concern non-empty curves). -/

def runningMaxAux (m : ℚ) : List ℚ → List ℚ
  | [] => []
  | x :: xs => max m x :: runningMaxAux (max m x) xs

/-- `equity_curve.cummax()`. -/
def runningMax : List ℚ → List ℚ
  | [] => []
  | x :: xs => x :: runningMaxAux x xs

/-- `equity_curve / running_max - 1.0`, elementwise. -/
def drawdowns (l : List ℚ) : List ℚ :=
  List.zipWith (fun x r => x / r - 1) l (runningMax l)

/-- `float(drawdown.min())`. -/
def max_drawdown (l : List ℚ) : ℚ :=
  match drawdowns l with
  | [] => 0
  | d :: ds => ds.foldl min d

/-! ## The insufficient-data guard of `add_hmm_regimes` (lines 67–71)

A pandas float cell is a rational, NaN, or ±infinity. -/

inductive PVal where
  | val (q : ℚ)
  | nan
  | inf
  | ninf
  deriving DecidableEq, Repr

/-- `replace([np.inf, -np.inf], np.nan)` on one cell. -/
def PVal.replaceInfNan : PVal → PVal
  | .inf => .nan
  | .ninf => .nan
  | v => v

/-- Is the cell missing (NaN)? -/
def PVal.isna : PVal → Bool
  | .nan => true
  | _ => false

/-- One row of the feature frame `out[["returns", "range",
"volume_volatility"]]` selected on line 67. -/
structure FeatRow where
  returns : PVal
  range : PVal
  volume_volatility : PVal
  deriving DecidableEq, Repr

/-- `features.replace([np.inf, -np.inf], np.nan).dropna()`: replace
infinities by NaN in every cell, then drop each row that has a missing
cell. -/
def validFeatureRows (rows : List FeatRow) : List FeatRow :=
  (rows.map (fun r =>
      { returns := r.returns.replaceInfNan
        range := r.range.replaceInfNan
        volume_volatility := r.volume_volatility.replaceInfNan })).filter
    (fun r => !(r.returns.isna || r.range.isna || r.volume_volatility.isna))

/-- The error message raised on line 71. -/
def insufficientMsg : String :=
  "Not enough data after feature engineering to fit HMM (need at least 120 rows)."

/-- Embedding of the data-sufficiency guard of `add_hmm_regimes`
(lines 67–71): the `ValueError` is raised iff the cleaned feature frame
has fewer than 120 rows, and it is raised before any model is fitted,
so in the error case nothing else happens.  The fit itself (an external
`hmmlearn` call) is abstracted as the `Unit` success value. -/
def add_hmm_regimes_check (rows : List FeatRow) : Except String Unit :=
  if (validFeatureRows rows).length < 120 then
    .error insufficientMsg
  else
    .ok ()

/-! ## The trade simulation loop of `run_backtest` (lines 124–242)

The loop iterates over `(timestamp, row)` pairs.  Timestamps are
integers counted in hours, so `pd.Timedelta(hours=48)` is `+ 48`, and
the initial `pd.Timestamp.min` cooldown (a value at or below every real
timestamp) is the bottom of `WithBot ℤ`. -/

structure Trade where
  entry_time : Option ℤ
  exit_time : ℤ
  entry_price : ℚ
  exit_price : ℚ
  entry_votes : ℕ
  exit_reason : String
  pnl : ℚ
  return_pct : ℚ
  deriving DecidableEq, Repr

/-- The parameters of `run_backtest` together with the two state ids
returned by `add_hmm_regimes` (the fit itself is external to the
loop being verified). -/
structure BTParams where
  initial_capital : ℚ
  leverage : ℚ
  bull_state : ℤ
  bear_state : ℤ
  deriving DecidableEq, Repr

/-- The loop-local variables of `run_backtest` (lines 133–143). -/
structure SimState where
  capital : ℚ
  in_position : Bool
  entry_price : ℚ
  entry_time : Option ℤ
  entry_capital : ℚ
  entry_votes : ℕ
  cooldown_until : WithBot ℤ
  trades : List Trade
  equity_points : List ℚ
  signal_points : List String
  deriving DecidableEq

/-- Initial loop state (lines 133–143). -/
def initState (p : BTParams) : SimState :=
  { capital := p.initial_capital
    in_position := false
    entry_price := 0
    entry_time := none
    entry_capital := p.initial_capital
    entry_votes := 0
    cooldown_until := ⊥
    trades := []
    equity_points := []
    signal_points := [] }

/-- Mark-to-market equity while in a position (lines 151–152):
`max(entry_capital * (1 + leverage * (close / entry_price - 1)), 0.0)`. -/
def markedEquityLong (p : BTParams) (s : SimState) (row : SimRow) : ℚ :=
  max (s.entry_capital * (1 + p.leverage * (row.Close / s.entry_price - 1))) 0

/-- Lines 150–154: the bar's marked equity (mark-to-market while in a
position, current capital otherwise). -/
def markBar (p : BTParams) (s : SimState) (row : SimRow) : ℚ :=
  if s.in_position = true then markedEquityLong p s row else s.capital

/-- The trade record appended by the exit rule (lines 161–172). -/
def bearExitTrade (bar : ℤ × SimRow) (marked_equity : ℚ) (s : SimState) : Trade :=
  { entry_time := s.entry_time
    exit_time := bar.1
    entry_price := s.entry_price
    exit_price := bar.2.Close
    entry_votes := s.entry_votes
    exit_reason := "Regime flipped to Bear/Crash"
    pnl := marked_equity - s.entry_capital
    return_pct := (if s.entry_capital ≠ 0 then
      (marked_equity - s.entry_capital) / s.entry_capital else 0) * 100 }

/-- The exit rule, lines 156–178: when in a position and the bar's
regime is the Bear state, realize the pnl, record the trade, clear the
position and start the 48-hour cooldown. -/
def exitPhase (p : BTParams) (bar : ℤ × SimRow) (marked_equity : ℚ)
    (s : SimState) : SimState :=
  if s.in_position = true ∧ bar.2.regime_state = p.bear_state then
    { s with
      capital := marked_equity
      trades := s.trades ++ [bearExitTrade bar marked_equity s]
      in_position := false
      entry_price := 0
      entry_time := none
      entry_capital := marked_equity
      entry_votes := 0
      cooldown_until := ((bar.1 + 48 : ℤ) : WithBot ℤ) }
  else s

/-- The entry rule, lines 180–186: when flat, out of cooldown, in the
Bull regime and with at least 7 of 8 confirmation votes, open a
position at the bar's close. -/
def entryPhase (p : BTParams) (bar : ℤ × SimRow) (s : SimState) : SimState :=
  if (s.in_position = false ∧ s.cooldown_until ≤ (bar.1 : WithBot ℤ)) ∧
      bar.2.regime_state = p.bull_state ∧ 7 ≤ (evaluate_confirmations bar.2).1 then
    { s with
      in_position := true
      entry_price := bar.2.Close
      entry_time := some bar.1
      entry_capital := s.capital
      entry_votes := (evaluate_confirmations bar.2).1 }
  else s

/-- Lines 188–189: append the bar's equity point and signal label. -/
def recordPoints (marked_equity : ℚ) (s : SimState) : SimState :=
  { s with
    equity_points := s.equity_points ++
      [if s.in_position = true then marked_equity else s.capital]
    signal_points := s.signal_points ++
      [if s.in_position = true then "Long" else "Cash"] }

/-- One iteration of the `for ts, row in df.iterrows()` loop
(lines 145–189): mark equity, apply the exit rule, apply the entry
rule, record equity and signal points. -/
def stepBar (p : BTParams) (s : SimState) (bar : ℤ × SimRow) : SimState :=
  recordPoints (markBar p s bar.2)
    (entryPhase p bar (exitPhase p bar (markBar p s bar.2) s))

/-- All intermediate loop states: `simStates p bars` has length
`bars.length + 1`, starting with `initState p`. -/
def simStates (p : BTParams) (bars : List (ℤ × SimRow)) : List SimState :=
  List.scanl (stepBar p) (initState p) bars

/-- The loop state after consuming every bar. -/
def loopState (p : BTParams) (bars : List (ℤ × SimRow)) : SimState :=
  List.foldl (stepBar p) (initState p) bars

/-- The trade record appended by the force-close (lines 198–209). -/
def endOfBacktestTrade (p : BTParams) (lastBar : ℤ × SimRow) (s : SimState)
    (et : ℤ) : Trade :=
  { entry_time := some et
    exit_time := lastBar.1
    entry_price := s.entry_price
    exit_price := lastBar.2.Close
    entry_votes := s.entry_votes
    exit_reason := "End of backtest"
    pnl := markedEquityLong p s lastBar.2 - s.entry_capital
    return_pct := (if s.entry_capital ≠ 0 then
      (markedEquityLong p s lastBar.2 - s.entry_capital) / s.entry_capital else 0) * 100 }

/-- The force-close after the loop (lines 191–209): if still in a
position (and an entry time was recorded), close at the last bar's
close with reason "End of backtest". -/
def finalize (p : BTParams) (bars : List (ℤ × SimRow)) (s : SimState) : SimState :=
  if s.in_position = true then
    match s.entry_time, bars.getLast? with
    | some et, some lastBar =>
      { s with
        capital := markedEquityLong p s lastBar.2
        trades := s.trades ++ [endOfBacktestTrade p lastBar s et] }
    | _, _ => s
  else s

/-- The whole simulation of `run_backtest` on a given bar series:
the loop followed by the force-close.  `(runSim p bars).capital` is the
`ending_capital` metric. -/
def runSim (p : BTParams) (bars : List (ℤ × SimRow)) : SimState :=
  finalize p bars (loopState p bars)

/-! ## Regime labelling of `add_hmm_regimes` (lines 88–98)

After the join and ffill/bfill on line 90, every row carries an
integer state; its `returns` cell may still be NaN (warm-up rows).
State ids decoded from the model are the naturals `0..K-1`. -/

structure StateRow where
  state : ℕ
  ret : Option ℚ
  deriving DecidableEq, Repr

/-- The distinct states present, in ascending order: pandas `groupby`
sorts its group keys ascending, and `idxmax`/`idxmin` scan the grouped
series in that order. -/
def stateIds (rows : List StateRow) : List ℕ :=
  (List.range ((rows.map StateRow.state).foldr max 0 + 1)).filter
    (fun s => (rows.map StateRow.state).contains s)

/-- `out.groupby("regime_state")["returns"].mean()` at one state: the
mean of the defined `returns` cells of that state's rows (pandas means
skip NaN; a state all of whose rows are NaN has a NaN mean, modelled
as `none`). -/
def stateMeanReturn (rows : List StateRow) (s : ℕ) : Option ℚ :=
  let vals := (rows.filter (fun r => r.state = s)).filterMap StateRow.ret
  if vals.isEmpty then none else some (vals.sum / (vals.length : ℚ))

/-- One step of the `idxmax`-style scan: skip NaN means, adopt the
first defined mean, and afterwards replace the incumbent only when
`cmp incumbent candidate` holds (strict improvement), so the first —
lowest — state id wins ties. -/
def idxBestStep (rows : List StateRow) (cmp : ℚ → ℚ → Bool)
    (acc : Option (ℕ × ℚ)) (s : ℕ) : Option (ℕ × ℚ) :=
  match stateMeanReturn rows s, acc with
  | none, _ => acc
  | some v, none => some (s, v)
  | some v, some bsv => if cmp bsv.2 v then some (s, v) else acc

/-- `Series.idxmax` / `idxmin` over the per-state means (`none` when
every mean is NaN, where pandas would raise). -/
def idxBest (cmp : ℚ → ℚ → Bool) (rows : List StateRow) : Option ℕ :=
  ((stateIds rows).foldl (idxBestStep rows cmp) none).map Prod.fst

/-- `bull_state = int(state_returns.idxmax())` (line 93). -/
def bull_state (rows : List StateRow) : Option ℕ :=
  idxBest (fun bv v => decide (bv < v)) rows

/-- `bear_state = int(state_returns.idxmin())` (line 94). -/
def bear_state (rows : List StateRow) : Option ℕ :=
  idxBest (fun bv v => decide (v < bv)) rows

/-- Lines 96–98: label "Neutral" everywhere, then overwrite the Bull
state's rows with "Bull Run", then the Bear state's rows with
"Bear/Crash" — the Bear write runs last, so when the two coincide the
Bear label survives.  (The fallback arm is unreachable whenever some
state has a defined mean; `idxmax` on an all-NaN series would raise in
pandas.) -/
def regimeLabel (rows : List StateRow) (s : ℕ) : String :=
  match bull_state rows, bear_state rows with
  | some bu, some be =>
    if s = be then "Bear/Crash" else if s = bu then "Bull Run" else "Neutral"
  | _, _ => "Neutral"

/-- Forward fill with a carried last defined value. -/
def ffillAux (carry : Option ℕ) : List (Option ℕ) → List (Option ℕ)
  | [] => []
  | some v :: xs => some v :: ffillAux (some v) xs
  | none :: xs => carry :: ffillAux carry xs

/-- `Series.ffill()`. -/
def ffill (l : List (Option ℕ)) : List (Option ℕ) := ffillAux none l

/-- `Series.bfill()`: a forward fill run backwards. -/
def bfill (l : List (Option ℕ)) : List (Option ℕ) :=
  (ffill l.reverse).reverse

/-- Line 90: `out["regime_state"].ffill().bfill()`. -/
def fillStates (l : List (Option ℕ)) : List (Option ℕ) := bfill (ffill l)

/-- The scan invariant for `idxBest`: a `none` accumulator means every
processed state had a NaN mean; a `some (bs, bv)` accumulator is a
processed state with defined mean `bv` that no processed mean
improves on, and that has the least id among processed states with
mean `bv`. -/
def IdxInv (rows : List StateRow) (cmp : ℚ → ℚ → Bool)
    (processed : List ℕ) (acc : Option (ℕ × ℚ)) : Prop :=
  match acc with
  | none => ∀ s ∈ processed, stateMeanReturn rows s = none
  | some (bs, bv) =>
      bs ∈ processed ∧ stateMeanReturn rows bs = some bv ∧
        ∀ s ∈ processed, ∀ v, stateMeanReturn rows s = some v →
          cmp bv v = false ∧ (v = bv → bs ≤ s)

/-! ## `compute_indicators` (source lines 19–61)

A DataFrame column is embedded as the function from a row index to the
cell's value, with `none` standing for NaN (and for the infinities the
source later collapses to NaN: its zero denominators are mapped to
`none` where pandas would produce ±inf and the code replaces or never
produces them on the documented input domain).  Indices past the end
of the bar list are never consulted by the claims.  The float square
root inside `Series.std` is abstracted as a parameter `sqrtFn`; every
property proved here holds for any such function. -/

structure Bar where
  Open : ℚ
  High : ℚ
  Low : ℚ
  Close : ℚ
  Volume : ℚ
  deriving DecidableEq, Repr

namespace Indicators

/-- The raw `Close` column of the input frame. -/
def closeC (l : List Bar) : ℕ → Option ℚ := fun i => (l[i]?).map Bar.Close

def highC (l : List Bar) : ℕ → Option ℚ := fun i => (l[i]?).map Bar.High

def lowC (l : List Bar) : ℕ → Option ℚ := fun i => (l[i]?).map Bar.Low

def volumeC (l : List Bar) : ℕ → Option ℚ := fun i => (l[i]?).map Bar.Volume

/-- Elementwise unary pandas arithmetic (NaN propagates). -/
def mapS (f : ℚ → ℚ) (s : ℕ → Option ℚ) : ℕ → Option ℚ :=
  fun i => (s i).map f

/-- Elementwise binary pandas arithmetic (NaN propagates). -/
def map2S (f : ℚ → ℚ → ℚ) (a b : ℕ → Option ℚ) : ℕ → Option ℚ :=
  fun i =>
    match a i, b i with
    | some x, some y => some (f x y)
    | _, _ => none

/-- Elementwise series division; a zero denominator is `none` (pandas
would produce ±inf or NaN there — every such division in the source is
either guarded by a `replace(0, np.nan)` on the denominator or
followed by `replace([np.inf, -np.inf], np.nan)`). -/
def divS (a b : ℕ → Option ℚ) : ℕ → Option ℚ :=
  fun i =>
    match a i, b i with
    | some x, some y => if y = 0 then none else some (x / y)
    | _, _ => none

/-- `Series.pct_change(k)`: NaN on the first `k` rows, then
`x_i / x_(i-k) - 1` (a zero base maps to `none`, see `divS`). -/
def pctChange (k : ℕ) (s : ℕ → Option ℚ) : ℕ → Option ℚ :=
  fun i =>
    if i < k then none
    else
      match s i, s (i - k) with
      | some x, some y => if y = 0 then none else some (x / y - 1)
      | _, _ => none

/-- `Series.diff()`: NaN on row 0, then `x_i - x_(i-1)`. -/
def diffS (s : ℕ → Option ℚ) : ℕ → Option ℚ :=
  fun i =>
    if i = 0 then none
    else
      match s i, s (i - 1) with
      | some x, some y => some (x - y)
      | _, _ => none

/-- `Series.shift()`: NaN on row 0, then the previous value. -/
def shiftS (s : ℕ → Option ℚ) : ℕ → Option ℚ :=
  fun i => if i = 0 then none else s (i - 1)

/-- `s.where(p s, 0.0)` for a value-wise predicate: keep the value
where the condition holds, else `0.0`; a NaN value fails the
condition, so it is also replaced by `0.0`. -/
def whereS (p : ℚ → Bool) (s : ℕ → Option ℚ) : ℕ → Option ℚ :=
  fun i =>
    match s i with
    | some x => if p x then some x else some 0
    | none => some 0

/-- `a.where((a > b) & (a > 0), 0.0)` — the directional-movement
masking on lines 39–40; any NaN in the condition yields `False`, hence
`0.0`. -/
def dmWhere (a b : ℕ → Option ℚ) : ℕ → Option ℚ :=
  fun i =>
    match a i with
    | some x =>
      match b i with
      | some y => if y < x ∧ 0 < x then some x else some 0
      | none => some 0
    | none => some 0

/-- `Series.replace(0, np.nan)`. -/
def replaceZeroNaN (s : ℕ → Option ℚ) : ℕ → Option ℚ :=
  fun i => (s i).bind (fun x => if x = 0 then none else some x)

/-- The window `s (i - k + 1) … s i` of size `k` ending at `i`, `none`
as soon as one entry is NaN. -/
def collectWindow (s : ℕ → Option ℚ) (i : ℕ) : ℕ → Option (List ℚ)
  | 0 => some []
  | k + 1 =>
    match s (i - k), collectWindow s i k with
    | some x, some xs => some (x :: xs)
    | _, _ => none

/-- `Series.rolling(k).mean()`: NaN until `k` rows exist, NaN when the
window holds a NaN (the default `min_periods = k` counts non-NaN
observations), else the window mean. -/
def rollingMean (k : ℕ) (s : ℕ → Option ℚ) : ℕ → Option ℚ :=
  fun i =>
    if i + 1 < k then none
    else
      match collectWindow s i k with
      | some vs => some (vs.sum / (k : ℚ))
      | none => none

/-- The sample variance inside `Series.rolling(k).std()` (pandas uses
`ddof = 1`; `k ≤ 1` would give NaN). -/
def rollingVar (k : ℕ) (s : ℕ → Option ℚ) : ℕ → Option ℚ :=
  fun i =>
    if i + 1 < k then none
    else
      match collectWindow s i k with
      | some vs =>
        if k ≤ 1 then none
        else
          some (((vs.map (fun x => (x - vs.sum / (k : ℚ)) ^ 2)).sum) /
            ((k : ℚ) - 1))
      | none => none

/-- `Series.rolling(k).std()`: the square root of the sample variance,
with the float square root abstracted as `sqrtFn`. -/
def rollingStd (sqrtFn : ℚ → ℚ) (k : ℕ) (s : ℕ → Option ℚ) :
    ℕ → Option ℚ :=
  fun i => (rollingVar k s i).map sqrtFn

/-- `Series.ewm(span, adjust=False).mean()`: the recursive EMA
`y_i = (1 - α) y_(i-1) + α x_i` with `α = 2 / (span + 1)`, seeded at
the first value.  (On the dense series this code applies it to, no NaN
ever enters the recursion.) -/
def ewmAux (α : ℚ) (s : ℕ → Option ℚ) : ℕ → Option ℚ
  | 0 => s 0
  | i + 1 =>
    match s (i + 1), ewmAux α s i with
    | some x, some y => some ((1 - α) * y + α * x)
    | some x, none => some x
    | none, yprev => yprev

def ewmMean (span : ℕ) (s : ℕ → Option ℚ) : ℕ → Option ℚ :=
  fun i => ewmAux (2 / ((span : ℚ) + 1)) s i

/-- `pd.concat([a, b, c], axis=1).max(axis=1)`: the rowwise maximum of
the defined entries (pandas `max` skips NaN; all-NaN gives NaN). -/
def max3S (a b c : ℕ → Option ℚ) : ℕ → Option ℚ :=
  fun i =>
    match ([a i, b i, c i].reduceOption : List ℚ) with
    | [] => none
    | x :: xs => some (xs.foldl max x)

/-! The indicator columns, in source order (lines 22–59). -/

/-- Line 22: `out["returns"] = out["Close"].pct_change()`. -/
def returns (l : List Bar) : ℕ → Option ℚ := pctChange 1 (closeC l)

/-- Line 23: `(High - Low) / Close.replace(0, nan)`. -/
def range (l : List Bar) : ℕ → Option ℚ :=
  divS (map2S (fun h lo => h - lo) (highC l) (lowC l))
    (replaceZeroNaN (closeC l))

/-- Line 24: `Volume.pct_change().rolling(24).std()`. -/
def volume_volatility (sqrtFn : ℚ → ℚ) (l : List Bar) : ℕ → Option ℚ :=
  rollingStd sqrtFn 24 (pctChange 1 (volumeC l))

/-- Line 26: `delta = Close.diff()`. -/
def delta (l : List Bar) : ℕ → Option ℚ := diffS (closeC l)

/-- Line 27: `gain = delta.where(delta > 0, 0.0)`. -/
def gain (l : List Bar) : ℕ → Option ℚ :=
  whereS (fun x => decide (0 < x)) (delta l)

/-- Line 28: `loss = -delta.where(delta < 0, 0.0)`. -/
def loss (l : List Bar) : ℕ → Option ℚ :=
  mapS (fun x => -x) (whereS (fun x => decide (x < 0)) (delta l))

/-- Line 29: `avg_gain = gain.rolling(14).mean()`. -/
def avg_gain (l : List Bar) : ℕ → Option ℚ := rollingMean 14 (gain l)

/-- Line 30: `avg_loss = loss.rolling(14).mean().replace(0, nan)`. -/
def avg_loss (l : List Bar) : ℕ → Option ℚ :=
  replaceZeroNaN (rollingMean 14 (loss l))

/-- Line 31: `rs = avg_gain / avg_loss`. -/
def rs (l : List Bar) : ℕ → Option ℚ := divS (avg_gain l) (avg_loss l)

/-- Line 32: `rsi = 100 - (100 / (1 + rs))`.  (`rs ≥ 0` on the real
domain, so `1 + rs` never vanishes.) -/
def rsi (l : List Bar) : ℕ → Option ℚ :=
  mapS (fun r => 100 - 100 / (1 + r)) (rs l)

/-- Line 34: `momentum = Close.pct_change(12)`. -/
def momentum (l : List Bar) : ℕ → Option ℚ := pctChange 12 (closeC l)

/-- Line 35: `volatility = returns.rolling(24).std() * 100`. -/
def volatility (sqrtFn : ℚ → ℚ) (l : List Bar) : ℕ → Option ℚ :=
  mapS (fun x => x * 100) (rollingStd sqrtFn 24 (returns l))

/-- Line 37: `plus_dm = High.diff()` (before masking). -/
def plus_dm0 (l : List Bar) : ℕ → Option ℚ := diffS (highC l)

/-- Line 38: `minus_dm = -Low.diff()` (before masking). -/
def minus_dm0 (l : List Bar) : ℕ → Option ℚ :=
  mapS (fun x => -x) (diffS (lowC l))

/-- Line 39: `plus_dm = plus_dm.where((plus_dm > minus_dm) & (plus_dm
> 0), 0.0)`. -/
def plus_dm (l : List Bar) : ℕ → Option ℚ :=
  dmWhere (plus_dm0 l) (minus_dm0 l)

/-- Line 40: `minus_dm = minus_dm.where((minus_dm > plus_dm) &
(minus_dm > 0), 0.0)` — against the already-masked `plus_dm` of
line 39, as the sequential reassignment dictates. -/
def minus_dm (l : List Bar) : ℕ → Option ℚ :=
  dmWhere (minus_dm0 l) (plus_dm l)

/-- Line 42: `tr1 = High - Low`. -/
def tr1 (l : List Bar) : ℕ → Option ℚ :=
  map2S (fun h lo => h - lo) (highC l) (lowC l)

/-- Line 43: `tr2 = (High - Close.shift()).abs()`. -/
def tr2 (l : List Bar) : ℕ → Option ℚ :=
  mapS (fun x => |x|) (map2S (fun h c => h - c) (highC l)
    (shiftS (closeC l)))

/-- Line 44: `tr3 = (Low - Close.shift()).abs()`. -/
def tr3 (l : List Bar) : ℕ → Option ℚ :=
  mapS (fun x => |x|) (map2S (fun lo c => lo - c) (lowC l)
    (shiftS (closeC l)))

/-- Line 45: `tr = concat([tr1, tr2, tr3], axis=1).max(axis=1)`. -/
def tr (l : List Bar) : ℕ → Option ℚ := max3S (tr1 l) (tr2 l) (tr3 l)

/-- Line 47: `atr = tr.rolling(14).mean().replace(0, nan)`. -/
def atr (l : List Bar) : ℕ → Option ℚ :=
  replaceZeroNaN (rollingMean 14 (tr l))

/-- Line 48: `plus_di = 100 * (plus_dm.rolling(14).mean() / atr)`. -/
def plus_di (l : List Bar) : ℕ → Option ℚ :=
  mapS (fun x => 100 * x) (divS (rollingMean 14 (plus_dm l)) (atr l))

/-- Line 49: `minus_di = 100 * (minus_dm.rolling(14).mean() / atr)`. -/
def minus_di (l : List Bar) : ℕ → Option ℚ :=
  mapS (fun x => 100 * x) (divS (rollingMean 14 (minus_dm l)) (atr l))

/-- Line 50: `dx = (100 * (plus_di - minus_di).abs() / (plus_di +
minus_di)).replace([inf, -inf], nan)` — the infinity replacement is
the zero-denominator case of `divS`. -/
def dx (l : List Bar) : ℕ → Option ℚ :=
  divS (mapS (fun d => 100 * |d|)
      (map2S (fun a b => a - b) (plus_di l) (minus_di l)))
    (map2S (fun a b => a + b) (plus_di l) (minus_di l))

/-- Line 51: `adx = dx.rolling(14).mean()`. -/
def adx (l : List Bar) : ℕ → Option ℚ := rollingMean 14 (dx l)

/-- Line 53: `ema50 = Close.ewm(span=50, adjust=False).mean()`. -/
def ema50 (l : List Bar) : ℕ → Option ℚ := ewmMean 50 (closeC l)

/-- Line 54: `ema200 = Close.ewm(span=200, adjust=False).mean()`. -/
def ema200 (l : List Bar) : ℕ → Option ℚ := ewmMean 200 (closeC l)

/-- Lines 56–58: `macd = ewm(Close, 12) - ewm(Close, 26)`. -/
def macd (l : List Bar) : ℕ → Option ℚ :=
  map2S (fun a b => a - b) (ewmMean 12 (closeC l)) (ewmMean 26 (closeC l))

/-- Line 59: `macd_signal = macd.ewm(span=9, adjust=False).mean()`. -/
def macd_signal (l : List Bar) : ℕ → Option ℚ := ewmMean 9 (macd l)

/-- Two series agree on every index below `n`. -/
def AgreeUpTo (n : ℕ) (s t : ℕ → Option ℚ) : Prop :=
  ∀ i, i < n → s i = t i

end Indicators

/-! ## Concrete inputs used by witness theorems -/

def witParams : BTParams :=
  { initial_capital := 10000, leverage := 2.5, bull_state := 0, bear_state := 1 }

/-- A row that passes all eight confirmation checks and sits in the
Bull state. -/
def witBullRow : SimRow :=
  { Close := 100, rsi := 50, momentum := 0.02, volatility := 1, adx := 30
    ema50 := 90, ema200 := 80, macd := 1, macd_signal := 0, regime_state := 0 }

/-- A row in the Bear state. -/
def witBearRow : SimRow :=
  { Close := 100, rsi := 50, momentum := 0.02, volatility := 1, adx := 30
    ema50 := 90, ema200 := 80, macd := 1, macd_signal := 0, regime_state := 1 }

/-- A Long state with a recorded entry. -/
def witState : SimState :=
  { capital := 10000, in_position := true, entry_price := 80
    entry_time := some 50, entry_capital := 10000, entry_votes := 8
    cooldown_until := ⊥, trades := [], equity_points := []
    signal_points := [] }

def witBearBar : ℤ × SimRow := (100, witBearRow)

def witBullBar : ℤ × SimRow := (100, witBullRow)

/-- A fully defined feature row. -/
def witFeatRow : FeatRow :=
  { returns := .val 0, range := .val 0, volume_volatility := .val 0 }

/-- Two decoded states with equal mean returns: the degenerate tie
between `idxmax` and `idxmin`. -/
def witTieRows : List StateRow := [⟨0, some 1⟩, ⟨1, some 1⟩]

/-- Two decoded states with distinct mean returns. -/
def witSplitRows : List StateRow :=
  [⟨0, some 2⟩, ⟨1, some (-1)⟩, ⟨0, none⟩]

/-- Two bar series that share exactly their first bar. -/
def witBars1 : List Bar :=
  [⟨1, 3, 1, 2, 10⟩, ⟨2, 4, 2, 3, 11⟩]

def witBars2 : List Bar :=
  [⟨1, 3, 1, 2, 10⟩, ⟨5, 9, 4, 7, 50⟩]

/-! # Theorems -/

/-! ## Structural lemmas about the step phases -/

lemma recordPoints_capital (m : ℚ) (s : SimState) :
    (recordPoints m s).capital = s.capital := rfl

lemma recordPoints_in_position (m : ℚ) (s : SimState) :
    (recordPoints m s).in_position = s.in_position := rfl

lemma recordPoints_entry_time (m : ℚ) (s : SimState) :
    (recordPoints m s).entry_time = s.entry_time := rfl

lemma recordPoints_entry_price (m : ℚ) (s : SimState) :
    (recordPoints m s).entry_price = s.entry_price := rfl

lemma recordPoints_entry_capital (m : ℚ) (s : SimState) :
    (recordPoints m s).entry_capital = s.entry_capital := rfl

lemma recordPoints_entry_votes (m : ℚ) (s : SimState) :
    (recordPoints m s).entry_votes = s.entry_votes := rfl

lemma recordPoints_trades (m : ℚ) (s : SimState) :
    (recordPoints m s).trades = s.trades := rfl

lemma recordPoints_cooldown (m : ℚ) (s : SimState) :
    (recordPoints m s).cooldown_until = s.cooldown_until := rfl

lemma recordPoints_equity (m : ℚ) (s : SimState) :
    (recordPoints m s).equity_points =
      s.equity_points ++ [if s.in_position = true then m else s.capital] := rfl

lemma entryPhase_capital (p : BTParams) (bar : ℤ × SimRow) (s : SimState) :
    (entryPhase p bar s).capital = s.capital := by
  unfold entryPhase; split <;> rfl

lemma entryPhase_trades (p : BTParams) (bar : ℤ × SimRow) (s : SimState) :
    (entryPhase p bar s).trades = s.trades := by
  unfold entryPhase; split <;> rfl

lemma entryPhase_equity (p : BTParams) (bar : ℤ × SimRow) (s : SimState) :
    (entryPhase p bar s).equity_points = s.equity_points := by
  unfold entryPhase; split <;> rfl

lemma entryPhase_cooldown (p : BTParams) (bar : ℤ × SimRow) (s : SimState) :
    (entryPhase p bar s).cooldown_until = s.cooldown_until := by
  unfold entryPhase; split <;> rfl

lemma entryPhase_eq_of_not_cooldown (p : BTParams) (bar : ℤ × SimRow)
    (s : SimState) (h : ¬ s.cooldown_until ≤ (bar.1 : WithBot ℤ)) :
    entryPhase p bar s = s := by
  unfold entryPhase
  rw [if_neg]
  rintro ⟨⟨_, hc⟩, _⟩
  exact h hc

/-- If the bar leaves the simulator in a position that it was not in
before the entry rule ran, then the entry rule fired: the guard on
line 181 held. -/
lemma entryPhase_inversion (p : BTParams) (bar : ℤ × SimRow) (s : SimState)
    (hflat : s.in_position = false)
    (hlong : (entryPhase p bar s).in_position = true) :
    s.cooldown_until ≤ (bar.1 : WithBot ℤ) ∧
      bar.2.regime_state = p.bull_state ∧
      7 ≤ (evaluate_confirmations bar.2).1 := by
  unfold entryPhase at hlong
  by_cases h : (s.in_position = false ∧ s.cooldown_until ≤ (bar.1 : WithBot ℤ)) ∧
      bar.2.regime_state = p.bull_state ∧ 7 ≤ (evaluate_confirmations bar.2).1
  · exact ⟨h.1.2, h.2.1, h.2.2⟩
  · rw [if_neg h] at hlong
    rw [hflat] at hlong
    exact absurd hlong (by simp)

lemma exitPhase_eq_of_flat (p : BTParams) (bar : ℤ × SimRow) (m : ℚ)
    (s : SimState) (h : s.in_position = false) :
    exitPhase p bar m s = s := by
  unfold exitPhase
  rw [if_neg]
  rintro ⟨h1, _⟩
  rw [h] at h1
  exact absurd h1 (by simp)

lemma exitPhase_eq_of_not_bear (p : BTParams) (bar : ℤ × SimRow) (m : ℚ)
    (s : SimState) (h : ¬ bar.2.regime_state = p.bear_state) :
    exitPhase p bar m s = s := by
  unfold exitPhase
  rw [if_neg]
  rintro ⟨_, h2⟩
  exact h h2

lemma exitPhase_exit (p : BTParams) (bar : ℤ × SimRow) (m : ℚ) (s : SimState)
    (hin : s.in_position = true) (hbear : bar.2.regime_state = p.bear_state) :
    exitPhase p bar m s =
      { s with
        capital := m
        trades := s.trades ++ [bearExitTrade bar m s]
        in_position := false
        entry_price := 0
        entry_time := none
        entry_capital := m
        entry_votes := 0
        cooldown_until := ((bar.1 + 48 : ℤ) : WithBot ℤ) } := by
  unfold exitPhase
  rw [if_pos ⟨hin, hbear⟩]

lemma markBar_of_long (p : BTParams) (s : SimState) (row : SimRow)
    (hin : s.in_position = true) :
    markBar p s row = markedEquityLong p s row := by
  unfold markBar; rw [if_pos hin]

lemma markBar_of_flat (p : BTParams) (s : SimState) (row : SimRow)
    (hflat : s.in_position = false) :
    markBar p s row = s.capital := by
  unfold markBar; rw [hflat]; rfl

lemma not_coe_add_48_le (t : ℤ) :
    ¬ (((t + 48 : ℤ) : WithBot ℤ) ≤ (t : WithBot ℤ)) := by
  rw [WithBot.coe_le_coe]
  omega

/-- C2: in `run_backtest`, whenever the simulator is Long and the
current bar's regime state equals the Bear state, the bar exits
regardless of vote count and profitability: exactly one trade with
exit reason "Regime flipped to Bear/Crash" and
`pnl = marked_equity - entry_capital` is appended, capital becomes the
marked equity, the position fields are cleared, and the cooldown
deadline becomes the bar's timestamp plus 48 hours. -/
theorem run_backtest_bear_exit (p : BTParams) (s : SimState)
    (bar : ℤ × SimRow) (hin : s.in_position = true)
    (hbear : bar.2.regime_state = p.bear_state) :
    (stepBar p s bar).trades =
        s.trades ++ [bearExitTrade bar (markedEquityLong p s bar.2) s] ∧
      (bearExitTrade bar (markedEquityLong p s bar.2) s).exit_reason =
        "Regime flipped to Bear/Crash" ∧
      (bearExitTrade bar (markedEquityLong p s bar.2) s).pnl =
        markedEquityLong p s bar.2 - s.entry_capital ∧
      (bearExitTrade bar (markedEquityLong p s bar.2) s).exit_time = bar.1 ∧
      (stepBar p s bar).capital = markedEquityLong p s bar.2 ∧
      (stepBar p s bar).in_position = false ∧
      (stepBar p s bar).entry_time = none ∧
      (stepBar p s bar).entry_price = 0 ∧
      (stepBar p s bar).entry_votes = 0 ∧
      (stepBar p s bar).cooldown_until = ((bar.1 + 48 : ℤ) : WithBot ℤ) := by
  have hm : markBar p s bar.2 = markedEquityLong p s bar.2 :=
    markBar_of_long p s bar.2 hin
  have hstep : stepBar p s bar =
      recordPoints (markBar p s bar.2)
        (entryPhase p bar (exitPhase p bar (markBar p s bar.2) s)) := rfl
  have hexit := exitPhase_exit p bar (markBar p s bar.2) s hin hbear
  have hentry : entryPhase p bar (exitPhase p bar (markBar p s bar.2) s) =
      exitPhase p bar (markBar p s bar.2) s := by
    apply entryPhase_eq_of_not_cooldown
    rw [hexit]
    exact not_coe_add_48_le bar.1
  rw [hstep, hentry, hexit, hm]
  refine ⟨rfl, rfl, rfl, rfl, rfl, rfl, rfl, rfl, rfl, rfl⟩

/-- Witness for `run_backtest_bear_exit` at a concrete Long state and
Bear bar. -/
theorem run_backtest_bear_exit_witness :
    (witState.in_position = true ∧
        witBearBar.2.regime_state = witParams.bear_state) ∧
      (stepBar witParams witState witBearBar).trades =
          witState.trades ++
            [bearExitTrade witBearBar
              (markedEquityLong witParams witState witBearBar.2) witState] ∧
        (stepBar witParams witState witBearBar).in_position = false ∧
        (stepBar witParams witState witBearBar).cooldown_until =
          ((148 : ℤ) : WithBot ℤ) := by
  have h := run_backtest_bear_exit witParams witState witBearBar
    (by decide) (by decide)
  exact ⟨⟨by decide, by decide⟩, h.1, h.2.2.2.2.2.1,
    h.2.2.2.2.2.2.2.2.2.trans (by decide)⟩

/-! ## C1: the entry guard -/

/-- Consecutive entries of a `scanl` are related by the folded
function. -/
lemma scanl_succ_step {α β : Type} (f : β → α → β) :
    ∀ (l : List α) (b : β) (i : ℕ) (s s' : β) (a : α),
      (List.scanl f b l)[i]? = some s →
      (List.scanl f b l)[i + 1]? = some s' →
      l[i]? = some a →
      s' = f s a := by
  intro l
  induction l with
  | nil =>
    intro b i s s' a _ _ h3
    simp at h3
  | cons x xs ih =>
    intro b i s s' a h1 h2 h3
    rw [List.scanl_cons] at h1 h2
    cases i with
    | zero =>
      simp only [List.singleton_append, List.getElem?_cons_zero,
        Option.some.injEq] at h1 h3
      simp only [List.singleton_append, List.getElem?_cons_succ] at h2
      have hhead : (List.scanl f (f b x) xs)[0]? = some (f b x) := by
        cases xs <;> simp [List.scanl_nil, List.scanl_cons]
      rw [hhead] at h2
      cases h2
      rw [← h1, ← h3]
    | succ j =>
      simp only [List.singleton_append, List.getElem?_cons_succ] at h1 h2 h3
      exact ih (f b x) j s s' a h1 h2 h3

/-- If a bar steps the simulator from Flat to Long, the entry guard on
line 181 held on that bar. -/
lemma stepBar_entry_inversion (p : BTParams) (s : SimState)
    (bar : ℤ × SimRow) (hflat : s.in_position = false)
    (hlong : (stepBar p s bar).in_position = true) :
    s.cooldown_until ≤ (bar.1 : WithBot ℤ) ∧
      bar.2.regime_state = p.bull_state ∧
      7 ≤ (evaluate_confirmations bar.2).1 := by
  have hexit : exitPhase p bar (markBar p s bar.2) s = s :=
    exitPhase_eq_of_flat p bar _ s hflat
  have hstep : stepBar p s bar =
      recordPoints (markBar p s bar.2)
        (entryPhase p bar (exitPhase p bar (markBar p s bar.2) s)) := rfl
  rw [hstep, hexit, recordPoints_in_position] at hlong
  exact entryPhase_inversion p bar s hflat hlong

/-- C1: in the trade simulation loop of `run_backtest`, for every bar
of the simulated series, an entry (Flat to Long transition) occurs on
that bar only if the bar's timestamp is at or after the current
cooldown deadline, the bar's regime state equals the Bull state, and
the bar's confirmation vote count is at least 7. -/
theorem run_backtest_entry_guard (p : BTParams) (bars : List (ℤ × SimRow))
    (i : ℕ) (s s' : SimState) (bar : ℤ × SimRow)
    (hs : (simStates p bars)[i]? = some s)
    (hs' : (simStates p bars)[i + 1]? = some s')
    (hb : bars[i]? = some bar)
    (hflat : s.in_position = false)
    (hlong : s'.in_position = true) :
    s.cooldown_until ≤ (bar.1 : WithBot ℤ) ∧
      bar.2.regime_state = p.bull_state ∧
      7 ≤ (evaluate_confirmations bar.2).1 := by
  have hstep : s' = stepBar p s bar :=
    scanl_succ_step (stepBar p) bars (initState p) i s s' bar hs hs' hb
  rw [hstep] at hlong
  exact stepBar_entry_inversion p s bar hflat hlong

/-- Witness for `run_backtest_entry_guard`: a one-bar series whose bar
is Bull with 8 votes and no cooldown, on which the entry fires. -/
theorem run_backtest_entry_guard_witness :
    ((simStates witParams [witBullBar])[0]? = some (initState witParams) ∧
        (simStates witParams [witBullBar])[1]? =
          some (stepBar witParams (initState witParams) witBullBar) ∧
        (initState witParams).in_position = false ∧
        (stepBar witParams (initState witParams) witBullBar).in_position =
          true) ∧
      (initState witParams).cooldown_until ≤ ((100 : ℤ) : WithBot ℤ) ∧
        witBullBar.2.regime_state = witParams.bull_state ∧
        7 ≤ (evaluate_confirmations witBullBar.2).1 := by
  have h := run_backtest_entry_guard witParams [witBullBar] 0
    (initState witParams) (stepBar witParams (initState witParams) witBullBar)
    witBullBar (by decide) (by decide) (by decide) (by decide) (by decide)
  exact ⟨⟨by decide, by decide, by decide, by decide⟩, h⟩

/-! ## C4: the equity curve is never negative -/

lemma exitPhase_equity (p : BTParams) (bar : ℤ × SimRow) (m : ℚ)
    (s : SimState) : (exitPhase p bar m s).equity_points = s.equity_points := by
  unfold exitPhase; split <;> rfl

lemma exitPhase_capital_cases (p : BTParams) (bar : ℤ × SimRow) (m : ℚ)
    (s : SimState) :
    (exitPhase p bar m s).capital = s.capital ∨
      (exitPhase p bar m s).capital = m := by
  unfold exitPhase; split
  · right; rfl
  · left; rfl

lemma markedEquityLong_nonneg (p : BTParams) (s : SimState) (row : SimRow) :
    0 ≤ markedEquityLong p s row :=
  le_max_right _ _

lemma markBar_nonneg (p : BTParams) (s : SimState) (row : SimRow)
    (h : 0 ≤ s.capital) : 0 ≤ markBar p s row := by
  unfold markBar; split
  · exact markedEquityLong_nonneg p s row
  · exact h

lemma stepBar_nonneg (p : BTParams) (s : SimState) (bar : ℤ × SimRow)
    (hcap : 0 ≤ s.capital) (heq : ∀ x ∈ s.equity_points, 0 ≤ x) :
    0 ≤ (stepBar p s bar).capital ∧
      ∀ x ∈ (stepBar p s bar).equity_points, 0 ≤ x := by
  have hm : 0 ≤ markBar p s bar.2 := markBar_nonneg p s bar.2 hcap
  have hcap1 : 0 ≤ (exitPhase p bar (markBar p s bar.2) s).capital := by
    rcases exitPhase_capital_cases p bar (markBar p s bar.2) s with h | h <;>
      rw [h] <;> assumption
  have hcap2 : 0 ≤ (entryPhase p bar (exitPhase p bar (markBar p s bar.2) s)).capital := by
    rw [entryPhase_capital]; exact hcap1
  have hstep : stepBar p s bar =
      recordPoints (markBar p s bar.2)
        (entryPhase p bar (exitPhase p bar (markBar p s bar.2) s)) := rfl
  rw [hstep]
  constructor
  · rw [recordPoints_capital]; exact hcap2
  · rw [recordPoints_equity]
    intro x hx
    rw [entryPhase_equity, exitPhase_equity] at hx
    rcases List.mem_append.mp hx with h | h
    · exact heq x h
    · rcases List.mem_singleton.mp h with rfl
      split
      · exact hm
      · exact hcap2

lemma loop_nonneg (p : BTParams) :
    ∀ (bars : List (ℤ × SimRow)) (s : SimState),
      0 ≤ s.capital → (∀ x ∈ s.equity_points, 0 ≤ x) →
      0 ≤ (List.foldl (stepBar p) s bars).capital ∧
        ∀ x ∈ (List.foldl (stepBar p) s bars).equity_points, 0 ≤ x := by
  intro bars
  induction bars with
  | nil => intro s h1 h2; exact ⟨h1, h2⟩
  | cons bar rest ih =>
    intro s h1 h2
    have hs := stepBar_nonneg p s bar h1 h2
    exact ih (stepBar p s bar) hs.1 hs.2

lemma finalize_equity (p : BTParams) (bars : List (ℤ × SimRow))
    (s : SimState) : (finalize p bars s).equity_points = s.equity_points := by
  unfold finalize; split
  · split <;> rfl
  · rfl

lemma finalize_capital_cases (p : BTParams) (bars : List (ℤ × SimRow))
    (s : SimState) :
    (finalize p bars s).capital = s.capital ∨
      ∃ lastBar : ℤ × SimRow,
        (finalize p bars s).capital = markedEquityLong p s lastBar.2 := by
  unfold finalize
  split
  · rcases s.entry_time with _ | et <;>
      rcases bars.getLast? with _ | lastBar
    · left; rfl
    · left; rfl
    · left; rfl
    · right; exact ⟨lastBar, rfl⟩
  · left; rfl

/-- C4: for every input series and positive initial capital and
leverage, every value of the equity curve produced by `run_backtest`
is non-negative, and so is the final capital: marked equity is clamped
at zero while Long, and capital while Flat is always non-negative. -/
theorem run_backtest_equity_nonneg (p : BTParams) (bars : List (ℤ × SimRow))
    (hcap : 0 < p.initial_capital) (hlev : 0 < p.leverage) :
    (∀ x ∈ (runSim p bars).equity_points, 0 ≤ x) ∧
      0 ≤ (runSim p bars).capital := by
  have hloop := loop_nonneg p bars (initState p) (le_of_lt hcap)
    (by intro x hx; exact absurd hx (List.not_mem_nil x))
  have hrun : runSim p bars = finalize p bars (loopState p bars) := rfl
  constructor
  · rw [hrun, finalize_equity]
    exact hloop.2
  · rw [hrun]
    rcases finalize_capital_cases p bars (loopState p bars) with h | ⟨lastBar, h⟩
    · rw [h]; exact hloop.1
    · rw [h]; exact markedEquityLong_nonneg p _ _

/-- Witness for `run_backtest_equity_nonneg` on a one-bar series. -/
theorem run_backtest_equity_nonneg_witness :
    (0 < witParams.initial_capital ∧ 0 < witParams.leverage) ∧
      (∀ x ∈ (runSim witParams [witBullBar]).equity_points, 0 ≤ x) ∧
        0 ≤ (runSim witParams [witBullBar]).capital := by
  have h := run_backtest_equity_nonneg witParams [witBullBar]
    (by decide) (by decide)
  exact ⟨⟨by decide, by decide⟩, h⟩

/-! ## C10: capital changes exactly at trade records -/

/-- The sum of the `pnl` fields of a trade log. -/
def tradesPnlSum (trs : List Trade) : ℚ := (trs.map Trade.pnl).sum

/-- The capital ledger invariant: capital is the initial capital plus
all realized pnl, and while Long the leverage base `entry_capital`
equals the (untouched) capital. -/
def capInv (p : BTParams) (s : SimState) : Prop :=
  s.capital = p.initial_capital + tradesPnlSum s.trades ∧
    (s.in_position = true → s.entry_capital = s.capital)

lemma tradesPnlSum_append (a : List Trade) (t : Trade) :
    tradesPnlSum (a ++ [t]) = tradesPnlSum a + t.pnl := by
  simp [tradesPnlSum]

lemma exitPhase_capInv (p : BTParams) (bar : ℤ × SimRow) (m : ℚ)
    (s : SimState) (h : capInv p s) :
    capInv p (exitPhase p bar m s) := by
  unfold exitPhase
  split
  · rename_i hcond
    constructor
    · show m = p.initial_capital + tradesPnlSum (s.trades ++ [bearExitTrade bar m s])
      rw [tradesPnlSum_append]
      have hec : s.entry_capital = s.capital := h.2 hcond.1
      have hpnl : (bearExitTrade bar m s).pnl = m - s.entry_capital := rfl
      rw [hpnl, hec, h.1]
      ring
    · intro hpos
      exact absurd hpos (by simp)
  · exact h

lemma entryPhase_capInv (p : BTParams) (bar : ℤ × SimRow) (s : SimState)
    (h : capInv p s) : capInv p (entryPhase p bar s) := by
  unfold entryPhase
  split
  · exact ⟨h.1, fun _ => rfl⟩
  · exact h

lemma recordPoints_capInv (p : BTParams) (m : ℚ) (s : SimState)
    (h : capInv p s) : capInv p (recordPoints m s) := h

lemma stepBar_capInv (p : BTParams) (s : SimState) (bar : ℤ × SimRow)
    (h : capInv p s) : capInv p (stepBar p s bar) :=
  recordPoints_capInv p _ _
    (entryPhase_capInv p bar _ (exitPhase_capInv p bar _ s h))

lemma loop_capInv (p : BTParams) :
    ∀ (bars : List (ℤ × SimRow)) (s : SimState),
      capInv p s → capInv p (List.foldl (stepBar p) s bars) := by
  intro bars
  induction bars with
  | nil => intro s h; exact h
  | cons bar rest ih => intro s h; exact ih _ (stepBar_capInv p s bar h)

lemma finalize_ledger (p : BTParams) (bars : List (ℤ × SimRow))
    (s : SimState) (h : capInv p s) :
    (finalize p bars s).capital =
      p.initial_capital + tradesPnlSum (finalize p bars s).trades := by
  unfold finalize
  split
  · rename_i hpos
    rcases s.entry_time with _ | et <;>
      rcases bars.getLast? with _ | lastBar
    · exact h.1
    · exact h.1
    · exact h.1
    · show markedEquityLong p s lastBar.2 =
        p.initial_capital +
          tradesPnlSum (s.trades ++ [endOfBacktestTrade p lastBar s et])
      rw [tradesPnlSum_append]
      have hec : s.entry_capital = s.capital := h.2 hpos
      have hpnl : (endOfBacktestTrade p lastBar s et).pnl =
          markedEquityLong p s lastBar.2 - s.entry_capital := rfl
      rw [hpnl, hec, h.1]
      ring
  · exact h.1

/-- C10: in `run_backtest`, capital changes only when a trade is
recorded (a Bear exit during the loop or the end-of-backtest close),
and the ending capital always equals the initial capital plus the sum
of the pnl of all recorded trades; with zero trades the ending capital
equals the initial capital exactly. -/
theorem run_backtest_capital_ledger (p : BTParams)
    (bars : List (ℤ × SimRow)) :
    (runSim p bars).capital =
        p.initial_capital + tradesPnlSum (runSim p bars).trades ∧
      ((runSim p bars).trades = [] →
        (runSim p bars).capital = p.initial_capital) ∧
      (∀ (s : SimState) (bar : ℤ × SimRow),
        (stepBar p s bar).trades = s.trades →
        (stepBar p s bar).capital = s.capital) ∧
      (∀ s : SimState,
        (finalize p bars s).trades = s.trades →
        (finalize p bars s).capital = s.capital) := by
  have hinit : capInv p (initState p) := by
    constructor
    · show p.initial_capital = p.initial_capital + tradesPnlSum []
      simp [tradesPnlSum]
    · intro h; simp [initState] at h
  have hloop := loop_capInv p bars (initState p) hinit
  have hledger : (runSim p bars).capital =
      p.initial_capital + tradesPnlSum (runSim p bars).trades :=
    finalize_ledger p bars (loopState p bars) hloop
  refine ⟨hledger, ?_, ?_, ?_⟩
  · intro h0
    rw [hledger, h0]
    simp [tradesPnlSum]
  · intro s bar htr
    have htr' : (stepBar p s bar).trades =
        (exitPhase p bar (markBar p s bar.2) s).trades := by
      show (recordPoints _ (entryPhase p bar _)).trades = _
      rw [recordPoints_trades, entryPhase_trades]
    have hcapeq : (stepBar p s bar).capital =
        (exitPhase p bar (markBar p s bar.2) s).capital := by
      show (recordPoints _ (entryPhase p bar _)).capital = _
      rw [recordPoints_capital, entryPhase_capital]
    rw [htr'] at htr
    rw [hcapeq]
    revert htr
    unfold exitPhase
    split
    · intro htr
      exact absurd htr (by simp)
    · intro _; rfl
  · intro s htr
    revert htr
    unfold finalize
    split
    · split
      · intro htr
        exact absurd htr (by simp)
      · intro _; rfl
    · intro _; rfl

/-- Witness for `run_backtest_capital_ledger`: on an empty series no
trade is recorded and the capital is untouched. -/
theorem run_backtest_capital_ledger_witness :
    (runSim witParams []).trades = [] ∧
      (runSim witParams []).capital = witParams.initial_capital := by
  have h := run_backtest_capital_ledger witParams []
  exact ⟨by decide, h.2.1 (by decide)⟩

/-! ## C3: single-position state machine, trade time ordering, forced
end-of-backtest close -/

/-- Every recorded trade carries its entry time, which does not exceed
its exit time. -/
def tradesEntryExitOK (trs : List Trade) : Prop :=
  ∀ tr ∈ trs, ∃ e : ℤ, tr.entry_time = some e ∧ e ≤ tr.exit_time

lemma stepBar_trades_cases (p : BTParams) (s : SimState) (bar : ℤ × SimRow) :
    (stepBar p s bar).trades = s.trades ∨
      (s.in_position = true ∧
        ∃ tr : Trade, (stepBar p s bar).trades = s.trades ++ [tr] ∧
          tr.entry_time = s.entry_time ∧ tr.exit_time = bar.1) := by
  have htr : (stepBar p s bar).trades =
      (exitPhase p bar (markBar p s bar.2) s).trades := by
    show (recordPoints _ (entryPhase p bar _)).trades = _
    rw [recordPoints_trades, entryPhase_trades]
  rw [htr]
  unfold exitPhase
  split
  · rename_i hcond
    right
    exact ⟨hcond.1, bearExitTrade bar (markBar p s bar.2) s, rfl, rfl, rfl⟩
  · left; rfl

lemma stepBar_entry_time_cases (p : BTParams) (s : SimState)
    (bar : ℤ × SimRow) (hlong : (stepBar p s bar).in_position = true) :
    (stepBar p s bar).entry_time = some bar.1 ∨
      (s.in_position = true ∧ (stepBar p s bar).entry_time = s.entry_time) := by
  have hpos : (stepBar p s bar).in_position =
      (entryPhase p bar (exitPhase p bar (markBar p s bar.2) s)).in_position := by
    show (recordPoints _ (entryPhase p bar _)).in_position = _
    rw [recordPoints_in_position]
  have het : (stepBar p s bar).entry_time =
      (entryPhase p bar (exitPhase p bar (markBar p s bar.2) s)).entry_time := by
    show (recordPoints _ (entryPhase p bar _)).entry_time = _
    rw [recordPoints_entry_time]
  rw [hpos] at hlong
  rw [het]
  revert hlong
  unfold entryPhase
  split
  · intro _
    left; rfl
  · intro hlong
    right
    revert hlong
    unfold exitPhase
    split
    · intro hlong
      exact absurd hlong (by simp)
    · intro hlong
      exact ⟨hlong, rfl⟩

/-- The loop invariant behind the trade-time ordering: trades recorded
so far are well-ordered, and while Long the recorded entry time is at
or before every remaining bar's timestamp and at or before the bound
`T`. -/
lemma loop_tradesOK (p : BTParams) (T : ℤ) :
    ∀ (bars : List (ℤ × SimRow)) (s : SimState),
      List.Pairwise (fun a b : ℤ × SimRow => a.1 ≤ b.1) bars →
      (∀ b ∈ bars, b.1 ≤ T) →
      tradesEntryExitOK s.trades →
      (s.in_position = true →
        ∃ e : ℤ, s.entry_time = some e ∧ (∀ b ∈ bars, e ≤ b.1) ∧ e ≤ T) →
      tradesEntryExitOK (List.foldl (stepBar p) s bars).trades ∧
        ((List.foldl (stepBar p) s bars).in_position = true →
          ∃ e : ℤ, (List.foldl (stepBar p) s bars).entry_time = some e ∧
            e ≤ T) := by
  intro bars
  induction bars with
  | nil =>
    intro s _ _ htr hpos
    refine ⟨htr, fun hlong => ?_⟩
    obtain ⟨e, he, _, heT⟩ := hpos hlong
    exact ⟨e, he, heT⟩
  | cons bar rest ih =>
    intro s hsort hbound htr hpos
    have hsort' := (List.pairwise_cons.mp hsort).2
    have hhead := (List.pairwise_cons.mp hsort).1
    have hbound' : ∀ b ∈ rest, b.1 ≤ T := fun b hb =>
      hbound b (List.mem_cons_of_mem bar hb)
    have htr' : tradesEntryExitOK (stepBar p s bar).trades := by
      rcases stepBar_trades_cases p s bar with h | ⟨hin, tr, happ, hentry, hexit⟩
      · rw [h]; exact htr
      · rw [happ]
        intro t ht
        rcases List.mem_append.mp ht with h | h
        · exact htr t h
        · rcases List.mem_singleton.mp h with rfl
          obtain ⟨e, he, hall, _⟩ := hpos hin
          exact ⟨e, hentry.trans he, hexit ▸ hall bar (List.mem_cons_self bar rest)⟩
    have hpos' : (stepBar p s bar).in_position = true →
        ∃ e : ℤ, (stepBar p s bar).entry_time = some e ∧
          (∀ b ∈ rest, e ≤ b.1) ∧ e ≤ T := by
      intro hlong
      rcases stepBar_entry_time_cases p s bar hlong with h | ⟨hin, h⟩
      · exact ⟨bar.1, h, hhead, hbound bar (List.mem_cons_self bar rest)⟩
      · obtain ⟨e, he, hall, heT⟩ := hpos hin
        exact ⟨e, h.trans he,
          fun b hb => hall b (List.mem_cons_of_mem bar hb), heT⟩
    exact ih (stepBar p s bar) hsort' hbound' htr' hpos'

/-- In a `≤`-sorted bar list, every timestamp is at most the last
one. -/
lemma pairwise_le_getLast :
    ∀ (bars : List (ℤ × SimRow)) (lastBar : ℤ × SimRow),
      List.Pairwise (fun a b : ℤ × SimRow => a.1 ≤ b.1) bars →
      bars.getLast? = some lastBar →
      ∀ b ∈ bars, b.1 ≤ lastBar.1 := by
  intro bars
  induction bars with
  | nil => intro lastBar _ h; simp at h
  | cons x rest ih =>
    intro lastBar hsort hlast b hb
    cases rest with
    | nil =>
      simp only [List.getLast?_singleton, Option.some.injEq] at hlast
      rcases List.mem_singleton.mp hb with rfl
      rw [hlast]
    | cons y rest' =>
      rw [List.getLast?_cons_cons] at hlast
      have hsort' := (List.pairwise_cons.mp hsort).2
      have hhead := (List.pairwise_cons.mp hsort).1
      have hlastmem : lastBar ∈ y :: rest' := by
        have := List.getLast?_eq_getLast (y :: rest') (by simp)
        rw [this] at hlast
        cases hlast
        exact List.getLast_mem _
      rcases List.mem_cons.mp hb with rfl | hb'
      · exact hhead lastBar hlastmem
      · exact ih lastBar hsort' hlast b hb'

lemma finalize_of_long (p : BTParams) (bars : List (ℤ × SimRow))
    (s : SimState) (lastBar : ℤ × SimRow) (et : ℤ)
    (hpos : s.in_position = true) (het : s.entry_time = some et)
    (hlast : bars.getLast? = some lastBar) :
    finalize p bars s =
      { s with
        capital := markedEquityLong p s lastBar.2
        trades := s.trades ++ [endOfBacktestTrade p lastBar s et] } := by
  unfold finalize
  rw [if_pos hpos, het, hlast]

/-- C3: throughout the simulation loop of `run_backtest`, the
simulator is a two-state machine starting Flat, so at most one
position is open at any bar; every recorded trade has
`exit_time ≥ entry_time`; and if the loop ends Long, a final trade
with reason "End of backtest" is appended at the last bar, so the run
never ends with an open, unrecorded position. -/
theorem run_backtest_position_invariants (p : BTParams)
    (bars : List (ℤ × SimRow))
    (hsort : List.Pairwise (fun a b : ℤ × SimRow => a.1 ≤ b.1) bars) :
    (initState p).in_position = false ∧
      (∀ s ∈ simStates p bars, (if s.in_position = true then 1 else 0) ≤ 1) ∧
      (∀ tr ∈ (runSim p bars).trades,
        ∃ e : ℤ, tr.entry_time = some e ∧ e ≤ tr.exit_time) ∧
      ((loopState p bars).in_position = true →
        ∃ lastBar : ℤ × SimRow, bars.getLast? = some lastBar ∧
          ∃ et : ℤ,
            (runSim p bars).trades = (loopState p bars).trades ++
              [endOfBacktestTrade p lastBar (loopState p bars) et] ∧
            (endOfBacktestTrade p lastBar (loopState p bars) et).exit_reason =
              "End of backtest" ∧
            (endOfBacktestTrade p lastBar (loopState p bars) et).exit_time =
              lastBar.1 ∧
            (endOfBacktestTrade p lastBar (loopState p bars) et).exit_price =
              lastBar.2.Close) := by
  refine ⟨rfl, ?_, ?_, ?_⟩
  · intro s _
    split <;> omega
  · -- trade-time ordering, including the possible forced close
    cases hlast : bars.getLast? with
    | none =>
      -- empty series: the loop is a no-op and finalize appends nothing
      have hnil : bars = [] := List.getLast?_eq_none_iff.mp hlast
      subst hnil
      intro tr htr
      have : (runSim p []).trades = [] := rfl
      rw [this] at htr
      exact absurd htr (List.not_mem_nil tr)
    | some lastBar =>
      have hboundT := pairwise_le_getLast bars lastBar hsort hlast
      have hloop := loop_tradesOK p lastBar.1 bars (initState p) hsort hboundT
        (fun tr htr => absurd htr (List.not_mem_nil tr))
        (fun h => by simp [initState] at h)
      intro tr htr
      by_cases hpos : (loopState p bars).in_position = true
      · obtain ⟨e, he, heT⟩ := hloop.2 hpos
        have hfin := finalize_of_long p bars (loopState p bars) lastBar e
          hpos he hlast
        have : (runSim p bars).trades = (loopState p bars).trades ++
            [endOfBacktestTrade p lastBar (loopState p bars) e] := by
          show (finalize p bars (loopState p bars)).trades = _
          rw [hfin]
        rw [this] at htr
        rcases List.mem_append.mp htr with h | h
        · exact hloop.1 tr h
        · rcases List.mem_singleton.mp h with rfl
          exact ⟨e, rfl, heT⟩
      · have : runSim p bars = loopState p bars := by
          show finalize p bars (loopState p bars) = _
          unfold finalize
          rw [if_neg hpos]
        rw [this] at htr
        exact hloop.1 tr htr
  · intro hpos
    cases hlast : bars.getLast? with
    | none =>
      have hnil : bars = [] := List.getLast?_eq_none_iff.mp hlast
      subst hnil
      exact absurd hpos (by simp [loopState, initState])
    | some lastBar =>
      have hboundT := pairwise_le_getLast bars lastBar hsort hlast
      have hloop := loop_tradesOK p lastBar.1 bars (initState p) hsort hboundT
        (fun tr htr => absurd htr (List.not_mem_nil tr))
        (fun h => by simp [initState] at h)
      obtain ⟨e, he, _⟩ := hloop.2 hpos
      have hfin := finalize_of_long p bars (loopState p bars) lastBar e
        hpos he hlast
      refine ⟨lastBar, rfl, e, ?_, rfl, rfl, rfl⟩
      show (finalize p bars (loopState p bars)).trades = _
      rw [hfin]

/-- Witness for `run_backtest_position_invariants`: a sorted two-bar
series on which an entry fires on the first bar and the force-close
records the "End of backtest" trade on the last bar. -/
theorem run_backtest_position_invariants_witness :
    List.Pairwise (fun a b : ℤ × SimRow => a.1 ≤ b.1)
        [witBullBar, ((101 : ℤ), witBullRow)] ∧
      (loopState witParams [witBullBar, ((101 : ℤ), witBullRow)]).in_position
          = true ∧
      (∃ lastBar : ℤ × SimRow,
          [witBullBar, ((101 : ℤ), witBullRow)].getLast? = some lastBar ∧
          ∃ et : ℤ,
            (runSim witParams
                [witBullBar, ((101 : ℤ), witBullRow)]).trades =
              (loopState witParams
                [witBullBar, ((101 : ℤ), witBullRow)]).trades ++
              [endOfBacktestTrade witParams lastBar
                (loopState witParams [witBullBar, ((101 : ℤ), witBullRow)])
                et] ∧
            (endOfBacktestTrade witParams lastBar
              (loopState witParams [witBullBar, ((101 : ℤ), witBullRow)])
              et).exit_reason = "End of backtest" ∧
            (endOfBacktestTrade witParams lastBar
              (loopState witParams [witBullBar, ((101 : ℤ), witBullRow)])
              et).exit_time = lastBar.1 ∧
            (endOfBacktestTrade witParams lastBar
              (loopState witParams [witBullBar, ((101 : ℤ), witBullRow)])
              et).exit_price = lastBar.2.Close) := by
  have h := run_backtest_position_invariants witParams
    [witBullBar, ((101 : ℤ), witBullRow)] (by decide)
  exact ⟨by decide, by decide, h.2.2.2 (by decide)⟩

/-! ## C6: the insufficient-data guard -/

/-- C6: `add_hmm_regimes` raises the insufficient-data `ValueError` if
and only if the number of valid feature rows — after replacing
infinities with NaN and dropping rows with any missing value — is
strictly below 120; otherwise it proceeds (no error is possible after
the guard in the modelled fragment). -/
theorem add_hmm_regimes_insufficient_data (rows : List FeatRow) :
    (add_hmm_regimes_check rows = .error insufficientMsg ↔
        (validFeatureRows rows).length < 120) ∧
      (add_hmm_regimes_check rows = .ok () ↔
        120 ≤ (validFeatureRows rows).length) := by
  by_cases h : (validFeatureRows rows).length < 120 <;>
    constructor <;> simp [add_hmm_regimes_check, h] <;> omega

/-- Witness for `add_hmm_regimes_insufficient_data` at the 119/120
boundary. -/
theorem add_hmm_regimes_insufficient_data_witness :
    add_hmm_regimes_check (List.replicate 119 witFeatRow) =
        .error insufficientMsg ∧
      add_hmm_regimes_check (List.replicate 120 witFeatRow) = .ok () := by
  have h119 :=
    (add_hmm_regimes_insufficient_data (List.replicate 119 witFeatRow)).1.mpr
      (by decide)
  have h120 :=
    (add_hmm_regimes_insufficient_data (List.replicate 120 witFeatRow)).2.mpr
      (by decide)
  exact ⟨h119, h120⟩

/-! ## C9: the confirmation vote count -/

/-- C9: `evaluate_confirmations` returns a vote count equal to the
number of its eight row-local conditions that hold, the count is at
most 8 (and at least 0 as a natural number), and each recorded check
is exactly its condition. -/
theorem evaluate_confirmations_votes (row : SimRow) :
    (evaluate_confirmations row).1 =
        ([decide (row.rsi < 90), decide (row.momentum > 0.01),
          decide (row.volatility < 6), decide (row.adx > 25),
          decide (row.Close > row.ema50), decide (row.Close > row.ema200),
          decide (row.ema50 > row.ema200),
          decide (row.macd > row.macd_signal)].countP id) ∧
      (evaluate_confirmations row).1 ≤ 8 ∧
      ((evaluate_confirmations row).2.rsi_lt_90 = true ↔ row.rsi < 90) ∧
      ((evaluate_confirmations row).2.momentum_gt_1pct = true ↔
        row.momentum > 0.01) ∧
      ((evaluate_confirmations row).2.volatility_lt_6pct = true ↔
        row.volatility < 6) ∧
      ((evaluate_confirmations row).2.adx_gt_25 = true ↔ row.adx > 25) ∧
      ((evaluate_confirmations row).2.price_gt_ema50 = true ↔
        row.Close > row.ema50) ∧
      ((evaluate_confirmations row).2.price_gt_ema200 = true ↔
        row.Close > row.ema200) ∧
      ((evaluate_confirmations row).2.ema50_gt_ema200 = true ↔
        row.ema50 > row.ema200) ∧
      ((evaluate_confirmations row).2.macd_gt_signal = true ↔
        row.macd > row.macd_signal) := by
  refine ⟨?_, ?_, ?_, ?_, ?_, ?_, ?_, ?_, ?_, ?_⟩
  · show (decide (row.rsi < 90)).toNat + (decide (row.momentum > 0.01)).toNat +
      (decide (row.volatility < 6)).toNat + (decide (row.adx > 25)).toNat +
      (decide (row.Close > row.ema50)).toNat +
      (decide (row.Close > row.ema200)).toNat +
      (decide (row.ema50 > row.ema200)).toNat +
      (decide (row.macd > row.macd_signal)).toNat = _
    generalize decide (row.rsi < 90) = b1
    generalize decide (row.momentum > 0.01) = b2
    generalize decide (row.volatility < 6) = b3
    generalize decide (row.adx > 25) = b4
    generalize decide (row.Close > row.ema50) = b5
    generalize decide (row.Close > row.ema200) = b6
    generalize decide (row.ema50 > row.ema200) = b7
    generalize decide (row.macd > row.macd_signal) = b8
    revert b1 b2 b3 b4 b5 b6 b7 b8
    decide
  · show (decide (row.rsi < 90)).toNat + (decide (row.momentum > 0.01)).toNat +
      (decide (row.volatility < 6)).toNat + (decide (row.adx > 25)).toNat +
      (decide (row.Close > row.ema50)).toNat +
      (decide (row.Close > row.ema200)).toNat +
      (decide (row.ema50 > row.ema200)).toNat +
      (decide (row.macd > row.macd_signal)).toNat ≤ 8
    generalize decide (row.rsi < 90) = b1
    generalize decide (row.momentum > 0.01) = b2
    generalize decide (row.volatility < 6) = b3
    generalize decide (row.adx > 25) = b4
    generalize decide (row.Close > row.ema50) = b5
    generalize decide (row.Close > row.ema200) = b6
    generalize decide (row.ema50 > row.ema200) = b7
    generalize decide (row.macd > row.macd_signal) = b8
    revert b1 b2 b3 b4 b5 b6 b7 b8
    decide
  all_goals
    simp [evaluate_confirmations]

/-! ## C7: the sign and zero case of `max_drawdown` -/

lemma foldl_min_le (ds : List ℚ) : ∀ a : ℚ, ds.foldl min a ≤ a := by
  induction ds with
  | nil => intro a; exact le_refl a
  | cons x xs ih =>
    intro a
    exact (ih (min a x)).trans (min_le_left a x)

lemma foldl_min_eq_zero_iff (ds : List ℚ) :
    ∀ a : ℚ, a ≤ 0 → (∀ x ∈ ds, x ≤ 0) →
      (ds.foldl min a = 0 ↔ (a = 0 ∧ ∀ x ∈ ds, x = 0)) := by
  induction ds with
  | nil =>
    intro a _ _
    simp
  | cons x xs ih =>
    intro a ha hall
    have hx : x ≤ 0 := hall x (List.mem_cons_self x xs)
    have hxs : ∀ y ∈ xs, y ≤ 0 := fun y hy => hall y (List.mem_cons_of_mem x hy)
    have hmin : min a x ≤ 0 := (min_le_left a x).trans ha
    rw [List.foldl_cons, ih (min a x) hmin hxs]
    constructor
    · rintro ⟨hm, hrest⟩
      have ha0 : a = 0 := le_antisymm ha (by rw [← hm]; exact min_le_left a x)
      have hx0 : x = 0 := le_antisymm hx (by rw [← hm]; exact min_le_right a x)
      refine ⟨ha0, fun y hy => ?_⟩
      rcases List.mem_cons.mp hy with rfl | hy'
      · exact hx0
      · exact hrest y hy'
    · rintro ⟨ha0, hall0⟩
      have hx0 : x = 0 := hall0 x (List.mem_cons_self x xs)
      refine ⟨?_, fun y hy => hall0 y (List.mem_cons_of_mem x hy)⟩
      rw [ha0, hx0]
      simp

/-- The drawdown entries against a running maximum seeded at `m` are
non-positive, and all vanish exactly when `m :: l` is
non-decreasing. -/
lemma runningMaxAux_drawdowns (l : List ℚ) :
    ∀ m : ℚ, 0 < m → (∀ x ∈ l, 0 < x) →
      (∀ d ∈ List.zipWith (fun x r => x / r - 1) l (runningMaxAux m l),
          d ≤ 0) ∧
        ((∀ d ∈ List.zipWith (fun x r => x / r - 1) l (runningMaxAux m l),
            d = 0) ↔
          List.Chain' (· ≤ ·) (m :: l)) := by
  induction l with
  | nil =>
    intro m _ _
    simp [runningMaxAux]
  | cons x xs ih =>
    intro m hm hpos
    have hx : 0 < x := hpos x (List.mem_cons_self x xs)
    have hxs : ∀ y ∈ xs, 0 < y := fun y hy => hpos y (List.mem_cons_of_mem x hy)
    have hmx : 0 < max m x := lt_of_lt_of_le hm (le_max_left m x)
    obtain ⟨ihle, ihiff⟩ := ih (max m x) hmx hxs
    have hzip : List.zipWith (fun a r => a / r - 1) (x :: xs)
        (runningMaxAux m (x :: xs)) =
        (x / max m x - 1) ::
          List.zipWith (fun a r => a / r - 1) xs (runningMaxAux (max m x) xs) :=
      rfl
    rw [hzip]
    have hd0 : x / max m x - 1 ≤ 0 := by
      have : x / max m x ≤ 1 := (div_le_one hmx).mpr (le_max_right m x)
      linarith
    constructor
    · intro d hd
      rcases List.mem_cons.mp hd with rfl | hd'
      · exact hd0
      · exact ihle d hd'
    · constructor
      · intro hall
        have h0 : x / max m x - 1 = 0 :=
          hall _ (List.mem_cons_self _ _)
        have hxeq : x = max m x := by
          have : x / max m x = 1 := by linarith
          exact (div_eq_one_iff_eq hmx.ne').mp this
        have hmle : m ≤ x := max_eq_right_iff.mp hxeq.symm
        have hrest : List.Chain' (· ≤ ·) (max m x :: xs) :=
          ihiff.mp (fun d hd => hall d (List.mem_cons_of_mem _ hd))
        rw [← hxeq] at hrest
        exact List.chain'_cons.mpr ⟨hmle, hrest⟩
      · intro hch
        obtain ⟨hmle, hch'⟩ := List.chain'_cons.mp hch
        have hmax : max m x = x := max_eq_right hmle
        have hrest : ∀ d ∈ List.zipWith (fun a r => a / r - 1) xs
            (runningMaxAux (max m x) xs), d = 0 := by
          apply ihiff.mpr
          rw [hmax]
          exact hch'
        intro d hd
        rcases List.mem_cons.mp hd with rfl | hd'
        · rw [hmax, div_self hx.ne']
          ring
        · exact hrest d hd'

/-- C7: for every non-empty equity curve of positive values,
`max_drawdown` is at most 0, and it equals 0 exactly when the curve is
non-decreasing throughout. -/
theorem max_drawdown_nonpos_iff_monotone (l : List ℚ) (hne : l ≠ [])
    (hpos : ∀ x ∈ l, 0 < x) :
    max_drawdown l ≤ 0 ∧
      (max_drawdown l = 0 ↔ List.Chain' (· ≤ ·) l) := by
  cases l with
  | nil => exact absurd rfl hne
  | cons x xs =>
    have hx : 0 < x := hpos x (List.mem_cons_self x xs)
    have hxs : ∀ y ∈ xs, 0 < y := fun y hy => hpos y (List.mem_cons_of_mem x hy)
    obtain ⟨hle, hiff⟩ := runningMaxAux_drawdowns xs x hx hxs
    have hmd : max_drawdown (x :: xs) =
        (List.zipWith (fun a r => a / r - 1) xs (runningMaxAux x xs)).foldl
          min (x / x - 1) := rfl
    have hx0 : x / x - 1 = 0 := by
      rw [div_self hx.ne']; ring
    rw [hmd, hx0]
    constructor
    · exact foldl_min_le _ 0
    · rw [foldl_min_eq_zero_iff _ 0 (le_refl 0) hle]
      constructor
      · rintro ⟨_, hall⟩
        exact hiff.mp hall
      · intro hch
        exact ⟨rfl, hiff.mpr hch⟩

/-- Witness for `max_drawdown_nonpos_iff_monotone` on a concrete
curve with a dip. -/
theorem max_drawdown_nonpos_iff_monotone_witness :
    (([4, 2, 3] : List ℚ) ≠ [] ∧ ∀ x ∈ ([4, 2, 3] : List ℚ), 0 < x) ∧
      max_drawdown [4, 2, 3] ≤ 0 ∧
        (max_drawdown [4, 2, 3] = 0 ↔
          List.Chain' (· ≤ ·) ([4, 2, 3] : List ℚ)) := by
  have h := max_drawdown_nonpos_iff_monotone [4, 2, 3] (by decide)
    (by decide)
  exact ⟨⟨by decide, by decide⟩, h⟩

/-! ## C5: Bull/Bear state labelling -/

lemma idxBestStep_inv (rows : List StateRow) (cmp : ℚ → ℚ → Bool)
    (hirr : ∀ v : ℚ, cmp v v = false)
    (htrans : ∀ a b c : ℚ, cmp a b = true → cmp b c = true → cmp a c = true)
    (processed : List ℕ) (s : ℕ) (acc : Option (ℕ × ℚ))
    (hlt : ∀ a ∈ processed, a < s)
    (hinv : IdxInv rows cmp processed acc) :
    IdxInv rows cmp (processed ++ [s]) (idxBestStep rows cmp acc s) := by
  unfold idxBestStep
  cases hms : stateMeanReturn rows s with
  | none =>
    cases acc with
    | none =>
      intro t ht
      rcases List.mem_append.mp ht with ht' | ht'
      · exact hinv t ht'
      · rcases List.mem_singleton.mp ht' with rfl
        exact hms
    | some bsv =>
      obtain ⟨bs, bv⟩ := bsv
      obtain ⟨h1, h2, h3⟩ := hinv
      refine ⟨List.mem_append_left _ h1, h2, ?_⟩
      intro t ht v hv
      rcases List.mem_append.mp ht with ht' | ht'
      · exact h3 t ht' v hv
      · rcases List.mem_singleton.mp ht' with rfl
        rw [hms] at hv
        exact absurd hv (by simp)
  | some v =>
    cases acc with
    | none =>
      refine ⟨List.mem_append_right _ (List.mem_singleton_self s), hms, ?_⟩
      intro t ht v' hv'
      rcases List.mem_append.mp ht with ht' | ht'
      · rw [hinv t ht'] at hv'
        exact absurd hv' (by simp)
      · rcases List.mem_singleton.mp ht' with rfl
        rw [hms] at hv'
        cases hv'
        exact ⟨hirr v, fun _ => le_refl _⟩
    | some bsv =>
      obtain ⟨bs, bv⟩ := bsv
      obtain ⟨h1, h2, h3⟩ := hinv
      by_cases hc : cmp bv v = true
      · show IdxInv rows cmp (processed ++ [s])
          (if cmp bv v = true then some (s, v) else some (bs, bv))
        rw [if_pos hc]
        refine ⟨List.mem_append_right _ (List.mem_singleton_self s), hms, ?_⟩
        intro t ht v' hv'
        rcases List.mem_append.mp ht with ht' | ht'
        · obtain ⟨hf, _⟩ := h3 t ht' v' hv'
          constructor
          · by_cases hcc : cmp v v' = true
            · rw [htrans bv v v' hc hcc] at hf
              exact absurd hf (by simp)
            · exact Bool.not_eq_true _ ▸ Bool.of_not_eq_true hcc
          · intro hveq
            rw [hveq] at hf
            rw [hf] at hc
            exact absurd hc (by simp)
        · rcases List.mem_singleton.mp ht' with rfl
          rw [hms] at hv'
          cases hv'
          exact ⟨hirr v, fun _ => le_refl _⟩
      · show IdxInv rows cmp (processed ++ [s])
          (if cmp bv v = true then some (s, v) else some (bs, bv))
        rw [if_neg hc]
        refine ⟨List.mem_append_left _ h1, h2, ?_⟩
        intro t ht v' hv'
        rcases List.mem_append.mp ht with ht' | ht'
        · exact h3 t ht' v' hv'
        · rcases List.mem_singleton.mp ht' with rfl
          rw [hms] at hv'
          cases hv'
          refine ⟨Bool.of_not_eq_true hc, fun _ => ?_⟩
          exact le_of_lt (hlt bs h1)

lemma idxBest_fold_inv (rows : List StateRow) (cmp : ℚ → ℚ → Bool)
    (hirr : ∀ v : ℚ, cmp v v = false)
    (htrans : ∀ a b c : ℚ, cmp a b = true → cmp b c = true → cmp a c = true) :
    ∀ (ids processed : List ℕ) (acc : Option (ℕ × ℚ)),
      List.Pairwise (· < ·) (processed ++ ids) →
      IdxInv rows cmp processed acc →
      IdxInv rows cmp (processed ++ ids)
        (ids.foldl (idxBestStep rows cmp) acc) := by
  intro ids
  induction ids with
  | nil =>
    intro processed acc _ h
    simpa using h
  | cons s rest ih =>
    intro processed acc hpw hinv
    have hassoc : processed ++ s :: rest = (processed ++ [s]) ++ rest := by
      simp
    have hlt : ∀ a ∈ processed, a < s := by
      intro a ha
      exact (List.pairwise_append.mp hpw).2.2 a ha s (List.mem_cons_self s rest)
    have hstep :=
      idxBestStep_inv rows cmp hirr htrans processed s acc hlt hinv
    have hpw' : List.Pairwise (· < ·) ((processed ++ [s]) ++ rest) := by
      rw [← hassoc]
      exact hpw
    have hrest := ih (processed ++ [s]) (idxBestStep rows cmp acc s) hpw' hstep
    rw [hassoc]
    simpa [List.foldl_cons] using hrest

lemma stateIds_sorted (rows : List StateRow) :
    List.Pairwise (· < ·) (stateIds rows) :=
  List.Pairwise.filter _ (List.pairwise_lt_range _)

/-- The `idxmax`/`idxmin` scan returns a present state with a defined
mean that no other defined mean beats, and that has the least id among
states attaining it. -/
lemma idxBest_spec (rows : List StateRow) (cmp : ℚ → ℚ → Bool)
    (hirr : ∀ v : ℚ, cmp v v = false)
    (htrans : ∀ a b c : ℚ, cmp a b = true → cmp b c = true → cmp a c = true)
    (s0 : ℕ) (m0 : ℚ) (hmem : s0 ∈ stateIds rows)
    (hm0 : stateMeanReturn rows s0 = some m0) :
    ∃ (b : ℕ) (bv : ℚ), idxBest cmp rows = some b ∧ b ∈ stateIds rows ∧
      stateMeanReturn rows b = some bv ∧
      ∀ s ∈ stateIds rows, ∀ v, stateMeanReturn rows s = some v →
        cmp bv v = false ∧ (v = bv → b ≤ s) := by
  have hinv := idxBest_fold_inv rows cmp hirr htrans (stateIds rows) [] none
    (by simpa using stateIds_sorted rows)
    (by intro t ht; exact absurd ht (List.not_mem_nil t))
  rw [List.nil_append] at hinv
  cases hacc : (stateIds rows).foldl (idxBestStep rows cmp) none with
  | none =>
    rw [hacc] at hinv
    rw [hinv s0 hmem] at hm0
    exact absurd hm0 (by simp)
  | some bsv =>
    obtain ⟨bs, bv⟩ := bsv
    rw [hacc] at hinv
    obtain ⟨h1, h2, h3⟩ := hinv
    refine ⟨bs, bv, ?_, h1, h2, h3⟩
    unfold idxBest
    rw [hacc]
    rfl

lemma ffillAux_all_some (l : List (Option ℕ)) :
    ∀ c : ℕ, ∀ x ∈ ffillAux (some c) l, x.isSome = true := by
  induction l with
  | nil =>
    intro c x hx
    exact absurd hx (List.not_mem_nil x)
  | cons a xs ih =>
    intro c x hx
    cases a with
    | some v =>
      rw [show ffillAux (some c) (some v :: xs) =
          some v :: ffillAux (some v) xs from rfl] at hx
      rcases List.mem_cons.mp hx with rfl | hx'
      · rfl
      · exact ih v x hx'
    | none =>
      rw [show ffillAux (some c) (none :: xs) =
          some c :: ffillAux (some c) xs from rfl] at hx
      rcases List.mem_cons.mp hx with rfl | hx'
      · rfl
      · exact ih c x hx'

lemma ffill_shape (l : List (Option ℕ)) (hex : ∃ v, some v ∈ l) :
    ∃ (n w : ℕ) (t : List (Option ℕ)),
      ffill l = List.replicate n none ++ some w :: t ∧
        ∀ x ∈ t, x.isSome = true := by
  induction l with
  | nil =>
    obtain ⟨v, hv⟩ := hex
    exact absurd hv (List.not_mem_nil _)
  | cons a xs ih =>
    cases a with
    | some v =>
      exact ⟨0, v, ffillAux (some v) xs, rfl, ffillAux_all_some xs v⟩
    | none =>
      obtain ⟨v, hv⟩ := hex
      have hv' : some v ∈ xs := by
        rcases List.mem_cons.mp hv with h | h
        · exact absurd h (by simp)
        · exact h
      obtain ⟨n, w, t, heq, ht⟩ := ih ⟨v, hv'⟩
      refine ⟨n + 1, w, t, ?_, ht⟩
      show none :: ffill xs = List.replicate (n + 1) none ++ some w :: t
      rw [List.replicate_succ, List.cons_append, heq]

lemma ffillAux_append_some (carry : Option ℕ) (l1 l2 : List (Option ℕ))
    (w : ℕ) (h1 : ∀ x ∈ l1, x.isSome = true) :
    ∀ x ∈ ffillAux carry (l1 ++ some w :: l2), x.isSome = true := by
  cases l1 with
  | nil =>
    intro x hx
    rw [show ffillAux carry ([] ++ some w :: l2) =
        some w :: ffillAux (some w) l2 from rfl] at hx
    rcases List.mem_cons.mp hx with rfl | hx'
    · rfl
    · exact ffillAux_all_some l2 w x hx'
  | cons a rest =>
    intro x hx
    have ha : a.isSome = true := h1 a (List.mem_cons_self a rest)
    obtain ⟨va, hva⟩ := Option.isSome_iff_exists.mp ha
    subst hva
    rw [show ffillAux carry ((some va :: rest) ++ some w :: l2) =
        some va :: ffillAux (some va) (rest ++ some w :: l2) from rfl] at hx
    rcases List.mem_cons.mp hx with rfl | hx'
    · rfl
    · exact ffillAux_all_some (rest ++ some w :: l2) va x hx'

/-- After `ffill().bfill()`, every row has a state as soon as any row
had one. -/
lemma fillStates_total (l : List (Option ℕ)) (hex : ∃ v, some v ∈ l) :
    ∀ x ∈ fillStates l, x.isSome = true := by
  obtain ⟨n, w, t, heq, ht⟩ := ffill_shape l hex
  intro x hx
  unfold fillStates bfill at hx
  rw [heq] at hx
  have hrev : (List.replicate n none ++ some w :: t).reverse =
      t.reverse ++ some w :: List.replicate n none := by
    rw [List.reverse_append, List.reverse_cons, List.reverse_replicate]
    rw [List.append_assoc, List.singleton_append]
  rw [hrev] at hx
  rw [List.mem_reverse] at hx
  have hallrev : ∀ x ∈ t.reverse, x.isSome = true := by
    intro y hy
    exact ht y (List.mem_reverse.mp hy)
  exact ffillAux_append_some none t.reverse (List.replicate n none) w
    hallrev x hx

/-- C5 (amended): whenever two present states have distinct defined
mean returns, exactly one state is labelled "Bull Run" (the state of
maximum mean return, lowest id on ties) and exactly one distinct state
"Bear/Crash" (the minimum, lowest id on ties), every other state is
"Neutral", and after `ffill().bfill()` every row carries a state.
When all state means are equal the source gives `bull_state =
bear_state` and no state is labelled "Bull Run" — see the
counterexample. -/
theorem add_hmm_regimes_labels (rows : List StateRow) (s1 s2 : ℕ)
    (m1 m2 : ℚ) (h1 : s1 ∈ stateIds rows) (h2 : s2 ∈ stateIds rows)
    (hm1 : stateMeanReturn rows s1 = some m1)
    (hm2 : stateMeanReturn rows s2 = some m2) (hne : m1 ≠ m2) :
    ∃ (bu be : ℕ) (bv ev : ℚ),
      bull_state rows = some bu ∧ bear_state rows = some be ∧
      bu ∈ stateIds rows ∧ be ∈ stateIds rows ∧
      stateMeanReturn rows bu = some bv ∧
      stateMeanReturn rows be = some ev ∧
      bu ≠ be ∧
      (∀ s ∈ stateIds rows, ∀ v, stateMeanReturn rows s = some v →
        v ≤ bv ∧ (v = bv → bu ≤ s)) ∧
      (∀ s ∈ stateIds rows, ∀ v, stateMeanReturn rows s = some v →
        ev ≤ v ∧ (v = ev → be ≤ s)) ∧
      regimeLabel rows bu = "Bull Run" ∧
      regimeLabel rows be = "Bear/Crash" ∧
      (∀ s : ℕ, s ≠ bu → s ≠ be → regimeLabel rows s = "Neutral") ∧
      (∀ l : List (Option ℕ), (∃ v, some v ∈ l) →
        ∀ x ∈ fillStates l, x.isSome = true) := by
  have hirrB : ∀ v : ℚ, (fun bv v => decide (bv < v)) v v = false := by
    intro v; simp
  have htransB : ∀ a b c : ℚ, decide (a < b) = true → decide (b < c) = true →
      decide (a < c) = true := by
    intro a b c hab hbc
    simp only [decide_eq_true_eq] at hab hbc ⊢
    exact hab.trans hbc
  have hirrE : ∀ v : ℚ, (fun bv v => decide (v < bv)) v v = false := by
    intro v; simp
  have htransE : ∀ a b c : ℚ, decide (b < a) = true → decide (c < b) = true →
      decide (c < a) = true := by
    intro a b c hab hbc
    simp only [decide_eq_true_eq] at hab hbc ⊢
    exact hbc.trans hab
  obtain ⟨bu, bv, hbu, hbumem, hbumean, hbuall⟩ :=
    idxBest_spec rows (fun bv v => decide (bv < v)) hirrB htransB s1 m1 h1 hm1
  obtain ⟨be, ev, hbe, hbemem, hbemean, hbeall⟩ :=
    idxBest_spec rows (fun bv v => decide (v < bv)) hirrE htransE s1 m1 h1 hm1
  have hmax : ∀ s ∈ stateIds rows, ∀ v, stateMeanReturn rows s = some v →
      v ≤ bv ∧ (v = bv → bu ≤ s) := by
    intro s hs v hv
    obtain ⟨hf, hle⟩ := hbuall s hs v hv
    simp only [decide_eq_false_iff_not, not_lt] at hf
    exact ⟨hf, hle⟩
  have hmin : ∀ s ∈ stateIds rows, ∀ v, stateMeanReturn rows s = some v →
      ev ≤ v ∧ (v = ev → be ≤ s) := by
    intro s hs v hv
    obtain ⟨hf, hle⟩ := hbeall s hs v hv
    simp only [decide_eq_false_iff_not, not_lt] at hf
    exact ⟨hf, hle⟩
  have hneq : bu ≠ be := by
    intro heq
    have hveq : bv = ev := by
      rw [heq] at hbumean
      rw [hbumean] at hbemean
      exact (Option.some.injEq _ _).mp hbemean
    have hm1le : m1 ≤ bv := (hmax s1 h1 m1 hm1).1
    have hm2le : m2 ≤ bv := (hmax s2 h2 m2 hm2).1
    have hlem1 : ev ≤ m1 := (hmin s1 h1 m1 hm1).1
    have hlem2 : ev ≤ m2 := (hmin s2 h2 m2 hm2).1
    rw [← hveq] at hlem1 hlem2
    exact hne (le_antisymm (hm1le.trans hlem2) (hm2le.trans hlem1))
  have hbu' : bull_state rows = some bu := hbu
  have hbe' : bear_state rows = some be := hbe
  refine ⟨bu, be, bv, ev, hbu', hbe', hbumem, hbemem, hbumean, hbemean, hneq,
    hmax, hmin, ?_, ?_, ?_, fillStates_total⟩
  · unfold regimeLabel
    rw [hbu', hbe']
    show (if bu = be then "Bear/Crash"
      else if bu = bu then "Bull Run" else "Neutral") = "Bull Run"
    rw [if_neg hneq, if_pos rfl]
  · unfold regimeLabel
    rw [hbu', hbe']
    show (if be = be then "Bear/Crash"
      else if be = bu then "Bull Run" else "Neutral") = "Bear/Crash"
    rw [if_pos rfl]
  · intro s hsbu hsbe
    unfold regimeLabel
    rw [hbu', hbe']
    show (if s = be then "Bear/Crash"
      else if s = bu then "Bull Run" else "Neutral") = "Neutral"
    rw [if_neg hsbe, if_neg hsbu]

/-- C5 counterexample: with two decoded states of equal mean return,
`idxmax` and `idxmin` both return the lowest state id, the Bear write
overwrites the Bull one, and no state is labelled "Bull Run" — so "
exactly one state is labeled Bull and exactly one distinct state is
labeled Bear" fails on the code. -/
theorem add_hmm_regimes_labels_tie_counterexample :
    (stateIds witTieRows).length = 2 ∧
      bull_state witTieRows = some 0 ∧
      bear_state witTieRows = some 0 ∧
      regimeLabel witTieRows 0 = "Bear/Crash" ∧
      regimeLabel witTieRows 1 = "Neutral" ∧
      ((stateIds witTieRows).filter
        (fun s => decide (regimeLabel witTieRows s = "Bull Run"))).length
        = 0 := by
  decide

/-- Witness for `add_hmm_regimes_labels` on two states with distinct
means. -/
theorem add_hmm_regimes_labels_witness :
    ((0 : ℕ) ∈ stateIds witSplitRows ∧ (1 : ℕ) ∈ stateIds witSplitRows ∧
        stateMeanReturn witSplitRows 0 = some 2 ∧
        stateMeanReturn witSplitRows 1 = some (-1) ∧
        (2 : ℚ) ≠ (-1 : ℚ)) ∧
      (∃ (bu be : ℕ) (bv ev : ℚ),
        bull_state witSplitRows = some bu ∧
        bear_state witSplitRows = some be ∧
        bu ∈ stateIds witSplitRows ∧ be ∈ stateIds witSplitRows ∧
        stateMeanReturn witSplitRows bu = some bv ∧
        stateMeanReturn witSplitRows be = some ev ∧
        bu ≠ be ∧
        (∀ s ∈ stateIds witSplitRows, ∀ v,
          stateMeanReturn witSplitRows s = some v →
          v ≤ bv ∧ (v = bv → bu ≤ s)) ∧
        (∀ s ∈ stateIds witSplitRows, ∀ v,
          stateMeanReturn witSplitRows s = some v →
          ev ≤ v ∧ (v = ev → be ≤ s)) ∧
        regimeLabel witSplitRows bu = "Bull Run" ∧
        regimeLabel witSplitRows be = "Bear/Crash" ∧
        (∀ s : ℕ, s ≠ bu → s ≠ be → regimeLabel witSplitRows s = "Neutral") ∧
        (∀ l : List (Option ℕ), (∃ v, some v ∈ l) →
          ∀ x ∈ fillStates l, x.isSome = true)) := by
  have h := add_hmm_regimes_labels witSplitRows 0 1 2 (-1)
    (by decide) (by decide) (by decide) (by decide) (by decide)
  exact ⟨⟨by decide, by decide, by decide, by decide, by decide⟩, h⟩

/-! ## C8: `compute_indicators` is causal -/

namespace Indicators

lemma agree_of_take (f : Bar → ℚ) (l1 l2 : List Bar) (n : ℕ)
    (h : l1.take n = l2.take n) :
    AgreeUpTo n (fun i => (l1[i]?).map f) (fun i => (l2[i]?).map f) := by
  intro i hi
  have h1 : (l1.take n)[i]? = l1[i]? := by
    rw [List.getElem?_take, if_pos hi]
  have h2 : (l2.take n)[i]? = l2[i]? := by
    rw [List.getElem?_take, if_pos hi]
  show (l1[i]?).map f = (l2[i]?).map f
  rw [← h1, ← h2, h]

lemma agree_mapS {n : ℕ} {s t : ℕ → Option ℚ} (f : ℚ → ℚ)
    (h : AgreeUpTo n s t) : AgreeUpTo n (mapS f s) (mapS f t) := by
  intro i hi
  unfold mapS
  rw [h i hi]

lemma agree_map2S {n : ℕ} {a a' b b' : ℕ → Option ℚ} (f : ℚ → ℚ → ℚ)
    (ha : AgreeUpTo n a a') (hb : AgreeUpTo n b b') :
    AgreeUpTo n (map2S f a b) (map2S f a' b') := by
  intro i hi
  unfold map2S
  rw [ha i hi, hb i hi]

lemma agree_divS {n : ℕ} {a a' b b' : ℕ → Option ℚ}
    (ha : AgreeUpTo n a a') (hb : AgreeUpTo n b b') :
    AgreeUpTo n (divS a b) (divS a' b') := by
  intro i hi
  unfold divS
  rw [ha i hi, hb i hi]

lemma agree_pctChange {n : ℕ} {s t : ℕ → Option ℚ} (k : ℕ)
    (h : AgreeUpTo n s t) : AgreeUpTo n (pctChange k s) (pctChange k t) := by
  intro i hi
  unfold pctChange
  rw [h i hi, h (i - k) (lt_of_le_of_lt (Nat.sub_le i k) hi)]

lemma agree_diffS {n : ℕ} {s t : ℕ → Option ℚ}
    (h : AgreeUpTo n s t) : AgreeUpTo n (diffS s) (diffS t) := by
  intro i hi
  unfold diffS
  rw [h i hi, h (i - 1) (lt_of_le_of_lt (Nat.sub_le i 1) hi)]

lemma agree_shiftS {n : ℕ} {s t : ℕ → Option ℚ}
    (h : AgreeUpTo n s t) : AgreeUpTo n (shiftS s) (shiftS t) := by
  intro i hi
  unfold shiftS
  rw [h (i - 1) (lt_of_le_of_lt (Nat.sub_le i 1) hi)]

lemma agree_whereS {n : ℕ} {s t : ℕ → Option ℚ} (p : ℚ → Bool)
    (h : AgreeUpTo n s t) : AgreeUpTo n (whereS p s) (whereS p t) := by
  intro i hi
  unfold whereS
  rw [h i hi]

lemma agree_dmWhere {n : ℕ} {a a' b b' : ℕ → Option ℚ}
    (ha : AgreeUpTo n a a') (hb : AgreeUpTo n b b') :
    AgreeUpTo n (dmWhere a b) (dmWhere a' b') := by
  intro i hi
  unfold dmWhere
  rw [ha i hi, hb i hi]

lemma agree_replaceZeroNaN {n : ℕ} {s t : ℕ → Option ℚ}
    (h : AgreeUpTo n s t) :
    AgreeUpTo n (replaceZeroNaN s) (replaceZeroNaN t) := by
  intro i hi
  unfold replaceZeroNaN
  rw [h i hi]

lemma agree_collectWindow {n : ℕ} {s t : ℕ → Option ℚ}
    (h : AgreeUpTo n s t) (i : ℕ) (hi : i < n) :
    ∀ k : ℕ, collectWindow s i k = collectWindow t i k := by
  intro k
  induction k with
  | zero => rfl
  | succ j ih =>
    show (match s (i - j), collectWindow s i j with
      | some x, some xs => some (x :: xs)
      | _, _ => none) = _
    rw [h (i - j) (lt_of_le_of_lt (Nat.sub_le i j) hi), ih]
    rfl

lemma agree_rollingMean {n : ℕ} {s t : ℕ → Option ℚ} (k : ℕ)
    (h : AgreeUpTo n s t) :
    AgreeUpTo n (rollingMean k s) (rollingMean k t) := by
  intro i hi
  unfold rollingMean
  rw [agree_collectWindow h i hi k]

lemma agree_rollingVar {n : ℕ} {s t : ℕ → Option ℚ} (k : ℕ)
    (h : AgreeUpTo n s t) :
    AgreeUpTo n (rollingVar k s) (rollingVar k t) := by
  intro i hi
  unfold rollingVar
  rw [agree_collectWindow h i hi k]

lemma agree_rollingStd {n : ℕ} {s t : ℕ → Option ℚ} (sqrtFn : ℚ → ℚ)
    (k : ℕ) (h : AgreeUpTo n s t) :
    AgreeUpTo n (rollingStd sqrtFn k s) (rollingStd sqrtFn k t) := by
  intro i hi
  unfold rollingStd
  rw [agree_rollingVar k h i hi]

lemma agree_ewmAux {n : ℕ} {s t : ℕ → Option ℚ} (α : ℚ)
    (h : AgreeUpTo n s t) : ∀ i, i < n → ewmAux α s i = ewmAux α t i := by
  intro i
  induction i with
  | zero =>
    intro hi
    exact h 0 hi
  | succ j ih =>
    intro hi
    show (match s (j + 1), ewmAux α s j with
      | some x, some y => some ((1 - α) * y + α * x)
      | some x, none => some x
      | none, yprev => yprev) = _
    rw [h (j + 1) hi, ih (Nat.lt_of_succ_lt hi)]
    rfl

lemma agree_ewmMean {n : ℕ} {s t : ℕ → Option ℚ} (span : ℕ)
    (h : AgreeUpTo n s t) : AgreeUpTo n (ewmMean span s) (ewmMean span t) := by
  intro i hi
  exact agree_ewmAux _ h i hi

lemma agree_max3S {n : ℕ} {a a' b b' c c' : ℕ → Option ℚ}
    (ha : AgreeUpTo n a a') (hb : AgreeUpTo n b b')
    (hc : AgreeUpTo n c c') :
    AgreeUpTo n (max3S a b c) (max3S a' b' c') := by
  intro i hi
  unfold max3S
  rw [ha i hi, hb i hi, hc i hi]

/-- C8: `compute_indicators` is causal — for any two bar series that
agree on their first `n` bars, every derived indicator value at each
position below `n` is identical between the two runs, so no indicator
value depends on bars after its own timestamp.  (The float square root
inside `std` is abstracted; the property holds for any `sqrtFn`.) -/
theorem compute_indicators_causal (sqrtFn : ℚ → ℚ) (l1 l2 : List Bar)
    (n : ℕ) (htake : l1.take n = l2.take n) (i : ℕ) (hi : i < n) :
    returns l1 i = returns l2 i ∧
      range l1 i = range l2 i ∧
      volume_volatility sqrtFn l1 i = volume_volatility sqrtFn l2 i ∧
      rsi l1 i = rsi l2 i ∧
      momentum l1 i = momentum l2 i ∧
      volatility sqrtFn l1 i = volatility sqrtFn l2 i ∧
      adx l1 i = adx l2 i ∧
      ema50 l1 i = ema50 l2 i ∧
      ema200 l1 i = ema200 l2 i ∧
      macd l1 i = macd l2 i ∧
      macd_signal l1 i = macd_signal l2 i := by
  have hclose : AgreeUpTo n (closeC l1) (closeC l2) :=
    agree_of_take Bar.Close l1 l2 n htake
  have hhigh : AgreeUpTo n (highC l1) (highC l2) :=
    agree_of_take Bar.High l1 l2 n htake
  have hlow : AgreeUpTo n (lowC l1) (lowC l2) :=
    agree_of_take Bar.Low l1 l2 n htake
  have hvolume : AgreeUpTo n (volumeC l1) (volumeC l2) :=
    agree_of_take Bar.Volume l1 l2 n htake
  have hreturns : AgreeUpTo n (returns l1) (returns l2) :=
    agree_pctChange 1 hclose
  have hrange : AgreeUpTo n (range l1) (range l2) :=
    agree_divS (agree_map2S _ hhigh hlow) (agree_replaceZeroNaN hclose)
  have hvv : AgreeUpTo n (volume_volatility sqrtFn l1)
      (volume_volatility sqrtFn l2) :=
    agree_rollingStd sqrtFn 24 (agree_pctChange 1 hvolume)
  have hdelta : AgreeUpTo n (delta l1) (delta l2) := agree_diffS hclose
  have hgain : AgreeUpTo n (gain l1) (gain l2) := agree_whereS _ hdelta
  have hloss : AgreeUpTo n (loss l1) (loss l2) :=
    agree_mapS _ (agree_whereS _ hdelta)
  have hag : AgreeUpTo n (avg_gain l1) (avg_gain l2) :=
    agree_rollingMean 14 hgain
  have hal : AgreeUpTo n (avg_loss l1) (avg_loss l2) :=
    agree_replaceZeroNaN (agree_rollingMean 14 hloss)
  have hrs : AgreeUpTo n (rs l1) (rs l2) := agree_divS hag hal
  have hrsi : AgreeUpTo n (rsi l1) (rsi l2) := agree_mapS _ hrs
  have hmom : AgreeUpTo n (momentum l1) (momentum l2) :=
    agree_pctChange 12 hclose
  have hvol : AgreeUpTo n (volatility sqrtFn l1) (volatility sqrtFn l2) :=
    agree_mapS _ (agree_rollingStd sqrtFn 24 hreturns)
  have hpdm0 : AgreeUpTo n (plus_dm0 l1) (plus_dm0 l2) := agree_diffS hhigh
  have hmdm0 : AgreeUpTo n (minus_dm0 l1) (minus_dm0 l2) :=
    agree_mapS _ (agree_diffS hlow)
  have hpdm : AgreeUpTo n (plus_dm l1) (plus_dm l2) :=
    agree_dmWhere hpdm0 hmdm0
  have hmdm : AgreeUpTo n (minus_dm l1) (minus_dm l2) :=
    agree_dmWhere hmdm0 hpdm
  have htr1 : AgreeUpTo n (tr1 l1) (tr1 l2) := agree_map2S _ hhigh hlow
  have htr2 : AgreeUpTo n (tr2 l1) (tr2 l2) :=
    agree_mapS _ (agree_map2S _ hhigh (agree_shiftS hclose))
  have htr3 : AgreeUpTo n (tr3 l1) (tr3 l2) :=
    agree_mapS _ (agree_map2S _ hlow (agree_shiftS hclose))
  have htr : AgreeUpTo n (tr l1) (tr l2) := agree_max3S htr1 htr2 htr3
  have hatr : AgreeUpTo n (atr l1) (atr l2) :=
    agree_replaceZeroNaN (agree_rollingMean 14 htr)
  have hpdi : AgreeUpTo n (plus_di l1) (plus_di l2) :=
    agree_mapS _ (agree_divS (agree_rollingMean 14 hpdm) hatr)
  have hmdi : AgreeUpTo n (minus_di l1) (minus_di l2) :=
    agree_mapS _ (agree_divS (agree_rollingMean 14 hmdm) hatr)
  have hdx : AgreeUpTo n (dx l1) (dx l2) :=
    agree_divS (agree_mapS _ (agree_map2S _ hpdi hmdi))
      (agree_map2S _ hpdi hmdi)
  have hadx : AgreeUpTo n (adx l1) (adx l2) := agree_rollingMean 14 hdx
  have hema50 : AgreeUpTo n (ema50 l1) (ema50 l2) := agree_ewmMean 50 hclose
  have hema200 : AgreeUpTo n (ema200 l1) (ema200 l2) :=
    agree_ewmMean 200 hclose
  have hmacd : AgreeUpTo n (macd l1) (macd l2) :=
    agree_map2S _ (agree_ewmMean 12 hclose) (agree_ewmMean 26 hclose)
  have hsig : AgreeUpTo n (macd_signal l1) (macd_signal l2) :=
    agree_ewmMean 9 hmacd
  exact ⟨hreturns i hi, hrange i hi, hvv i hi, hrsi i hi, hmom i hi,
    hvol i hi, hadx i hi, hema50 i hi, hema200 i hi, hmacd i hi,
    hsig i hi⟩

end Indicators

/-- Witness for `Indicators.compute_indicators_causal`: two two-bar
series sharing only their first bar, checked at position 0. -/
theorem compute_indicators_causal_witness :
    ((witBars1.take 1 = witBars2.take 1) ∧ (0 : ℕ) < 1) ∧
      Indicators.returns witBars1 0 = Indicators.returns witBars2 0 ∧
        Indicators.range witBars1 0 = Indicators.range witBars2 0 ∧
        Indicators.volume_volatility id witBars1 0 =
          Indicators.volume_volatility id witBars2 0 ∧
        Indicators.rsi witBars1 0 = Indicators.rsi witBars2 0 ∧
        Indicators.momentum witBars1 0 = Indicators.momentum witBars2 0 ∧
        Indicators.volatility id witBars1 0 =
          Indicators.volatility id witBars2 0 ∧
        Indicators.adx witBars1 0 = Indicators.adx witBars2 0 ∧
        Indicators.ema50 witBars1 0 = Indicators.ema50 witBars2 0 ∧
        Indicators.ema200 witBars1 0 = Indicators.ema200 witBars2 0 ∧
        Indicators.macd witBars1 0 = Indicators.macd witBars2 0 ∧
        Indicators.macd_signal witBars1 0 =
          Indicators.macd_signal witBars2 0 := by
  have h := Indicators.compute_indicators_causal id witBars1 witBars2 1
    (by decide) 0 (by decide)
  exact ⟨⟨by decide, by decide⟩, h⟩

end Backtester
